import Mathlib

/-!
Verification development for the paperrace repository (two engine modules:
the legacy `src/gamestate.py` and the consolidated `src/game/gamestate.py`,
plus the agents in `src/game/agent.py`).

Conventions of the embedding:
* `Coord` (a Python tuple of two ints) is modelled as `Pt := ℤ × ℤ`.
* Python float interpolation (`p1 + (i/distance)*(p2-p1)` followed by
  `round`) is modelled over `ℚ` with Python 3's round-half-to-even
  (`roundQ`).
* Python dictionaries are modelled as association lists, Python lists as
  `List`, `None` as `Option.none`.
-/

namespace PaperRace

/-- A grid point / vector (`Coord` in the Python source). -/
abbrev Pt := ℤ × ℤ

/-- `Coord.__add__`: componentwise addition. -/
def padd (a b : Pt) : Pt := (a.1 + b.1, a.2 + b.2)

/-- `Coord.__sub__`: componentwise subtraction. -/
def psub (a b : Pt) : Pt := (a.1 - b.1, a.2 - b.2)

/-- `Coord.__abs__`: the Chebyshev magnitude `max(|x|, |y|)`. -/
def chebAbs (a : Pt) : ℤ := max |a.1| |a.2|

/-- Python 3's `round` on an exact rational: round to the nearest integer,
ties going to the even integer (banker's rounding). -/
def roundQ (q : ℚ) : ℤ :=
  if q - (⌊q⌋ : ℚ) < 1/2 then ⌊q⌋
  else if 1/2 < q - (⌊q⌋ : ℚ) then ⌊q⌋ + 1
  else if ⌊q⌋ % 2 = 0 then ⌊q⌋ else ⌊q⌋ + 1

/-- Round-half-to-even of the exact fraction `n / d` (meaningful for
`d > 0`), in pure integer arithmetic so that concrete states evaluate
inside the kernel. For `d > 0` the Euclidean quotient `n / d` is the
floor of the fraction and `n % d` its (nonnegative) remainder; the bridge
`roundHalfEven_eq_roundQ` below proves this agrees with `roundQ`. -/
def roundHalfEven (n d : ℤ) : ℤ :=
  if 2 * (n % d) < d then n / d
  else if d < 2 * (n % d) then n / d + 1
  else if (n / d) % 2 = 0 then n / d else n / d + 1

/-- `PaperRaceGrid.dist`: Chebyshev distance between two points
(`max([abs(v1-v2) for v1, v2 in zip(p1, p2)])`), as a natural number. -/
def dist (p1 p2 : Pt) : ℕ := max (p1.1 - p2.1).natAbs (p1.2 - p2.2).natAbs

/-- The `i`-th interpolated point of `PaperRaceGrid.line p1 p2`:
`round(p1 + (i/distance)*(p2-p1))`, modelled as the exact rational
`(p1*d + i*(p2-p1)) / d` rounded half-to-even componentwise.
`line` only evaluates this for `i < distance`; the `distance = 0` guard
(returning `p1`) keeps the helper total. `interp_eq_rational` re-states
the value in the `p1 + (i/d)*(p2-p1)` form of the source. -/
def interp (p1 p2 : Pt) (i : ℕ) : Pt :=
  if dist p1 p2 = 0 then p1
  else (roundHalfEven (p1.1 * (dist p1 p2 : ℤ) + (i : ℤ) * (p2.1 - p1.1)) (dist p1 p2 : ℤ),
        roundHalfEven (p1.2 * (dist p1 p2 : ℤ) + (i : ℤ) * (p2.2 - p1.2)) (dist p1 p2 : ℤ))

/-- `PaperRaceGrid.line p1 p2`: the interpolated points for
`i in range(distance)` followed by the final append of `p2`. -/
def lineP (p1 p2 : Pt) : List Pt :=
  ((List.range (dist p1 p2)).map (interp p1 p2)) ++ [p2]

/-! ### Facts about `roundQ` -/

theorem roundQ_intCast (n : ℤ) : roundQ (n : ℚ) = n := by
  simp [roundQ]

theorem sub_floor_lt_one (q : ℚ) : q - (⌊q⌋ : ℚ) < 1 := by
  have := Int.lt_floor_add_one q
  linarith

theorem sub_floor_nonneg (q : ℚ) : 0 ≤ q - (⌊q⌋ : ℚ) := by
  have := Int.floor_le q
  linarith

theorem roundQ_le_add_half (q : ℚ) : (roundQ q : ℚ) ≤ q + 1/2 := by
  unfold roundQ
  have h1 := sub_floor_lt_one q
  have h2 := sub_floor_nonneg q
  have h3 := Int.floor_le q
  split
  · linarith
  · split
    · push_cast
      next h _ => linarith [not_lt.mp h]
    · split
      · linarith
      · push_cast
        next h h' _ =>
          have : q - (⌊q⌋ : ℚ) = 1/2 := le_antisymm (not_lt.mp h') (not_lt.mp h)
          linarith

theorem sub_half_le_roundQ (q : ℚ) : q - 1/2 ≤ (roundQ q : ℚ) := by
  unfold roundQ
  have h1 := sub_floor_lt_one q
  have h2 := sub_floor_nonneg q
  have h3 := Int.floor_le q
  split
  · next h => linarith
  · split
    · push_cast; linarith
    · split
      · next h h' _ =>
        have : q - (⌊q⌋ : ℚ) = 1/2 := le_antisymm (not_lt.mp h') (not_lt.mp h)
        linarith
      · push_cast; linarith

/-- If `q ≤ n` for an integer `n` then rounding stays at or below `n`. -/
theorem roundQ_le_of_le {q : ℚ} {n : ℤ} (h : q ≤ (n : ℚ)) : roundQ q ≤ n := by
  have h1 := roundQ_le_add_half q
  have h2 : (roundQ q : ℚ) < (n : ℚ) + 1 := by linarith
  exact_mod_cast Int.lt_add_one_iff.mp (by exact_mod_cast h2)

/-- If `n ≤ q` for an integer `n` then rounding stays at or above `n`. -/
theorem le_roundQ_of_le {q : ℚ} {n : ℤ} (h : (n : ℚ) ≤ q) : n ≤ roundQ q := by
  have h1 := sub_half_le_roundQ q
  have h2 : (n : ℚ) - 1 < (roundQ q : ℚ) := by linarith
  have h3 : n - 1 < roundQ q := by exact_mod_cast h2
  omega

/-! ### Facts about `dist` and `lineP` -/

theorem dist_comm (p1 p2 : Pt) : dist p1 p2 = dist p2 p1 := by
  unfold dist
  rw [← Int.natAbs_neg (p1.1 - p2.1), ← Int.natAbs_neg (p1.2 - p2.2)]
  simp [neg_sub]

theorem dist_eq_zero_iff {p1 p2 : Pt} : dist p1 p2 = 0 ↔ p1 = p2 := by
  unfold dist
  constructor
  · intro h
    have h1 : (p1.1 - p2.1).natAbs = 0 := by omega
    have h2 : (p1.2 - p2.2).natAbs = 0 := by omega
    have e1 : p1.1 = p2.1 := by omega
    have e2 : p1.2 = p2.2 := by omega
    exact Prod.ext e1 e2
  · intro h; subst h; simp

/-- For `d > 0` the integer round-half-even of `n / d` agrees with the
rational rounding `roundQ (n / d)`. -/
theorem roundHalfEven_eq_roundQ {n d : ℤ} (hd : 0 < d) :
    roundHalfEven n d = roundQ ((n : ℚ) / (d : ℚ)) := by
  have hd0 : d ≠ 0 := hd.ne'
  have hdq : (0 : ℚ) < (d : ℚ) := by exact_mod_cast hd
  have hsum := Int.emod_add_ediv n d
  have hfloor : ⌊(n : ℚ) / (d : ℚ)⌋ = n / d := by
    rw [Int.floor_eq_iff]
    constructor
    · rw [le_div_iff₀ hdq]
      have h0 := Int.emod_nonneg n hd0
      have : (n / d) * d ≤ n := by
        calc (n / d) * d = d * (n / d) := mul_comm _ _
          _ ≤ n % d + d * (n / d) := by linarith
          _ = n := hsum
      exact_mod_cast this
    · rw [div_lt_iff₀ hdq]
      have h0 := Int.emod_lt_of_pos n hd
      have : n < (n / d + 1) * d := by
        calc n = n % d + d * (n / d) := hsum.symm
          _ < d + d * (n / d) := by linarith
          _ = (n / d + 1) * d := by ring
      exact_mod_cast this
  have hfrac : (n : ℚ) / (d : ℚ) - ((n / d : ℤ) : ℚ) = ((n % d : ℤ) : ℚ) / (d : ℚ) := by
    field_simp
    have : (n : ℚ) = ((n % d : ℤ) : ℚ) + (d : ℚ) * ((n / d : ℤ) : ℚ) := by exact_mod_cast hsum.symm
    linarith
  have c1 : (((n % d : ℤ) : ℚ) / (d : ℚ) < 1/2) ↔ (2 * (n % d) < d) := by
    rw [div_lt_div_iff₀ hdq (by norm_num)]
    constructor
    · intro hq
      have h' : (n % d) * 2 < 1 * d := by exact_mod_cast hq
      omega
    · intro hz
      have h' : (n % d) * 2 < 1 * d := by omega
      exact_mod_cast h'
  have c2 : (1/2 < ((n % d : ℤ) : ℚ) / (d : ℚ)) ↔ (d < 2 * (n % d)) := by
    rw [div_lt_div_iff₀ (by norm_num) hdq]
    constructor
    · intro hq
      have h' : 1 * d < (n % d) * 2 := by exact_mod_cast hq
      omega
    · intro hz
      have h' : 1 * d < (n % d) * 2 := by omega
      exact_mod_cast h'
  unfold roundQ roundHalfEven
  rw [hfloor, hfrac]
  by_cases h1 : 2 * (n % d) < d
  · rw [if_pos h1, if_pos (c1.mpr h1)]
  · rw [if_neg h1, if_neg (fun hc => h1 (c1.mp hc))]
    by_cases h2 : d < 2 * (n % d)
    · rw [if_pos h2, if_pos (c2.mpr h2)]
    · rw [if_neg h2, if_neg (fun hc => h2 (c2.mp hc))]

/-- Exact multiples round to themselves. -/
theorem roundHalfEven_mul_left (k : ℤ) {d : ℤ} (hd : 0 < d) :
    roundHalfEven (k * d) d = k := by
  unfold roundHalfEven
  rw [Int.mul_emod_left, Int.mul_ediv_cancel k hd.ne']
  simp [hd]

/-- `interp` in the `p1 + (i/d)*(p2-p1)` form of the source (over `ℚ`). -/
theorem interp_eq_rational (p1 p2 : Pt) (i : ℕ) (h : dist p1 p2 ≠ 0) :
    interp p1 p2 i =
      (roundQ ((p1.1 : ℚ) + ((i : ℚ) / (dist p1 p2 : ℚ)) * ((p2.1 : ℚ) - (p1.1 : ℚ))),
       roundQ ((p1.2 : ℚ) + ((i : ℚ) / (dist p1 p2 : ℚ)) * ((p2.2 : ℚ) - (p1.2 : ℚ)))) := by
  have hd : (0 : ℤ) < (dist p1 p2 : ℤ) := by
    exact_mod_cast Nat.pos_of_ne_zero h
  have hdq : ((dist p1 p2 : ℕ) : ℚ) ≠ 0 := by exact_mod_cast h
  unfold interp
  rw [if_neg h]
  refine Prod.ext ?_ ?_
  · show roundHalfEven _ _ = _
    rw [roundHalfEven_eq_roundQ hd]
    apply congrArg roundQ
    push_cast
    field_simp
  · show roundHalfEven _ _ = _
    rw [roundHalfEven_eq_roundQ hd]
    apply congrArg roundQ
    push_cast
    field_simp

theorem interp_zero (p1 p2 : Pt) : interp p1 p2 0 = p1 := by
  by_cases h : dist p1 p2 = 0
  · simp [interp, h]
  · have hd : (0 : ℤ) < (dist p1 p2 : ℤ) := by exact_mod_cast Nat.pos_of_ne_zero h
    unfold interp
    rw [if_neg h]
    have e1 : p1.1 * (dist p1 p2 : ℤ) + ((0 : ℕ) : ℤ) * (p2.1 - p1.1) = p1.1 * (dist p1 p2 : ℤ) := by
      push_cast; ring
    have e2 : p1.2 * (dist p1 p2 : ℤ) + ((0 : ℕ) : ℤ) * (p2.2 - p1.2) = p1.2 * (dist p1 p2 : ℤ) := by
      push_cast; ring
    rw [e1, e2]
    exact Prod.ext (roundHalfEven_mul_left _ hd) (roundHalfEven_mul_left _ hd)

theorem interp_dist (p1 p2 : Pt) : interp p1 p2 (dist p1 p2) = p2 := by
  by_cases h : dist p1 p2 = 0
  · have := dist_eq_zero_iff.mp h
    subst this
    simp [interp, h]
  · have hd : (0 : ℤ) < (dist p1 p2 : ℤ) := by exact_mod_cast Nat.pos_of_ne_zero h
    unfold interp
    rw [if_neg h]
    have e1 : p1.1 * (dist p1 p2 : ℤ) + ((dist p1 p2 : ℕ) : ℤ) * (p2.1 - p1.1)
        = p2.1 * (dist p1 p2 : ℤ) := by ring
    have e2 : p1.2 * (dist p1 p2 : ℤ) + ((dist p1 p2 : ℕ) : ℤ) * (p2.2 - p1.2)
        = p2.2 * (dist p1 p2 : ℤ) := by ring
    rw [e1, e2]
    exact Prod.ext (roundHalfEven_mul_left _ hd) (roundHalfEven_mul_left _ hd)

/-- `lineP` as a single map over `range (d+1)` (the final `append(p2)`
coincides with the interpolation at `i = d`). -/
theorem lineP_eq_map (p1 p2 : Pt) :
    lineP p1 p2 = (List.range (dist p1 p2 + 1)).map (interp p1 p2) := by
  unfold lineP
  rw [List.range_succ, List.map_append]
  simp [interp_dist]

theorem lineP_length (p1 p2 : Pt) : (lineP p1 p2).length = dist p1 p2 + 1 := by
  rw [lineP_eq_map]; simp

theorem lineP_self (p : Pt) : lineP p p = [p] := by
  unfold lineP
  simp [dist_eq_zero_iff.mpr rfl]

theorem lineP_head (p1 p2 : Pt) : (lineP p1 p2).head? = some p1 := by
  rw [lineP_eq_map]
  have h : dist p1 p2 + 1 = (dist p1 p2 + 1 - 1) + 1 := by omega
  rw [h, List.range_succ_eq_map]
  simp [interp_zero]

theorem lineP_getLast (p1 p2 : Pt) : (lineP p1 p2).getLast? = some p2 := by
  unfold lineP
  simp

/-- Exchanging the endpoints replaces the interpolation parameter `j` by
`d - j`: both sides name the same exact rational point, so they round to
the same grid point. -/
theorem roundQ_eq_of_eq_int {q : ℚ} {n : ℤ} (h : q = (n : ℚ)) : roundQ q = n := by
  rw [h, roundQ_intCast]

theorem interp_symm (p1 p2 : Pt) {j : ℕ} (hj : j ≤ dist p1 p2) :
    interp p2 p1 j = interp p1 p2 (dist p1 p2 - j) := by
  by_cases h : dist p1 p2 = 0
  · have hq := dist_eq_zero_iff.mp h
    subst hq
    have hj0 : j = 0 := by omega
    subst hj0
    rw [h]
  · have h2 : dist p2 p1 ≠ 0 := by rwa [dist_comm p2 p1]
    have hcast : ((dist p1 p2 - j : ℕ) : ℤ) = ((dist p1 p2 : ℕ) : ℤ) - (j : ℤ) := by
      push_cast [hj]; ring
    unfold interp
    rw [if_neg h2, if_neg h, dist_comm p2 p1]
    refine Prod.ext ?_ ?_
    · show roundHalfEven _ _ = roundHalfEven _ _
      apply congrArg (fun n => roundHalfEven n (dist p1 p2 : ℤ))
      rw [hcast]; ring
    · show roundHalfEven _ _ = roundHalfEven _ _
      apply congrArg (fun n => roundHalfEven n (dist p1 p2 : ℤ))
      rw [hcast]; ring

/-- `line(p2, p1)` is the reverse of `line(p1, p2)` (over exact rational
interpolation with a deterministic rounding). -/
theorem lineP_symm (p1 p2 : Pt) : lineP p2 p1 = (lineP p1 p2).reverse := by
  have hlen : (lineP p2 p1).length = (lineP p1 p2).reverse.length := by
    simp [lineP_length, dist_comm p2 p1]
  apply List.ext_getElem hlen
  intro i h1 h2
  have hi : i ≤ dist p1 p2 := by
    rw [lineP_length, dist_comm p2 p1] at h1; omega
  rw [List.getElem_reverse]
  have e1 : lineP p2 p1 = (List.range (dist p1 p2 + 1)).map (interp p2 p1) := by
    rw [lineP_eq_map, dist_comm p2 p1]
  simp only [e1, lineP_eq_map, List.getElem_map, List.getElem_range, lineP_length,
    List.length_map, List.length_range]
  have harg : dist p1 p2 + 1 - 1 - i = dist p1 p2 - i := by omega
  rw [harg, interp_symm p1 p2 hi]

/-- When the endpoints differ, the second point of the line is never the
first endpoint: in the dominant coordinate the first interpolation step
moves by exactly one. -/
theorem lineP_getD_one_ne {a b : Pt} (h : a ≠ b) :
    (lineP a b).getD 1 (0, 0) ≠ a := by
  have hd : dist a b ≠ 0 := fun hc => h (dist_eq_zero_iff.mp hc)
  by_cases h1 : dist a b = 1
  · -- line = [a, b], index 1 is b ≠ a
    have : lineP a b = [interp a b 0, b] := by
      unfold lineP; rw [h1]; rfl
    rw [this, interp_zero]
    simpa using fun hc => h hc.symm
  · -- index 1 is the first interpolated step
    have hlen : 1 < dist a b := by omega
    have hget : (lineP a b).getD 1 (0, 0) = interp a b 1 := by
      rw [lineP_eq_map]
      rw [List.getD_eq_getElem?_getD]
      rw [List.getElem?_map]
      simp [List.getElem?_range (show 1 < dist a b + 1 by omega)]
    rw [hget]
    have hdz : (0 : ℤ) < (dist a b : ℤ) := by exact_mod_cast Nat.pos_of_ne_zero hd
    -- one of the coordinates realizes the Chebyshev distance
    have hcases : (a.1 - b.1).natAbs = dist a b ∨ (a.2 - b.2).natAbs = dist a b := by
      unfold dist; omega
    intro hc
    rcases hcases with hx | hy
    · have habs : b.1 - a.1 = (dist a b : ℤ) ∨ b.1 - a.1 = -(dist a b : ℤ) := by omega
      have hval : (interp a b 1).1 = a.1 + 1 ∨ (interp a b 1).1 = a.1 - 1 := by
        unfold interp
        rw [if_neg hd]
        rcases habs with he | he
        · left
          show roundHalfEven _ _ = _
          have e : a.1 * (dist a b : ℤ) + ((1 : ℕ) : ℤ) * (b.1 - a.1)
              = (a.1 + 1) * (dist a b : ℤ) := by rw [he]; push_cast; ring
          rw [e, roundHalfEven_mul_left _ hdz]
        · right
          show roundHalfEven _ _ = _
          have e : a.1 * (dist a b : ℤ) + ((1 : ℕ) : ℤ) * (b.1 - a.1)
              = (a.1 - 1) * (dist a b : ℤ) := by rw [he]; push_cast; ring
          rw [e, roundHalfEven_mul_left _ hdz]
      have : (interp a b 1).1 = a.1 := by rw [hc]
      omega
    · have habs : b.2 - a.2 = (dist a b : ℤ) ∨ b.2 - a.2 = -(dist a b : ℤ) := by omega
      have hval : (interp a b 1).2 = a.2 + 1 ∨ (interp a b 1).2 = a.2 - 1 := by
        unfold interp
        rw [if_neg hd]
        rcases habs with he | he
        · left
          show roundHalfEven _ _ = _
          have e : a.2 * (dist a b : ℤ) + ((1 : ℕ) : ℤ) * (b.2 - a.2)
              = (a.2 + 1) * (dist a b : ℤ) := by rw [he]; push_cast; ring
          rw [e, roundHalfEven_mul_left _ hdz]
        · right
          show roundHalfEven _ _ = _
          have e : a.2 * (dist a b : ℤ) + ((1 : ℕ) : ℤ) * (b.2 - a.2)
              = (a.2 - 1) * (dist a b : ℤ) := by rw [he]; push_cast; ring
          rw [e, roundHalfEven_mul_left _ hdz]
      have : (interp a b 1).2 = a.2 := by rw [hc]
      omega

/-! ### Association lists (Python dicts: insertion-ordered, keyed maps) -/

/-- Lookup in an association list (`dict.get` / `dict[k]`). -/
def alookup {κ α : Type} [DecidableEq κ] : List (κ × α) → κ → Option α
  | [], _ => none
  | (k0, v) :: rest, k => if k0 = k then some v else alookup rest k

/-- `dict[k] = v`: replace the value if the key exists, else append
(preserving Python's insertion order). -/
def aset {κ α : Type} [DecidableEq κ] : List (κ × α) → κ → α → List (κ × α)
  | [], k, v => [(k, v)]
  | (k0, v0) :: rest, k, v =>
    if k0 = k then (k0, v) :: rest else (k0, v0) :: aset rest k v

/-- `k in dict`. -/
def haskey {κ α : Type} [DecidableEq κ] : List (κ × α) → κ → Bool
  | [], _ => false
  | (k0, _) :: rest, k => if k0 = k then true else haskey rest k

/-! ### Grid (`PaperRaceGrid`) -/

/-- `PaperRacePointType`. -/
inductive PaperRacePointType
  | STREET
  | BLOCK
  | EFFECT
deriving DecidableEq, Repr

/-- The `type` string of an effect section in the map file
(`PREffectConfig.type`; `createNewEffectObj` rejects any other string
with a `NameError` at map-load time, so the embedding closes the type). -/
inductive EffKind
  | SAND
  | MULTISPEED
  | MAXSPEED
  | BIGGERTARGETAREA
deriving DecidableEq, Repr

/-- A parsed `PREffectConfig`: the `kind` plus the optional integer keys
the consumers read with `config.getint(key, default)` (`none` models a key
absent from the map file). -/
structure EffTemplate where
  kind : EffKind
  multiplier : Option ℤ
  maxspeed : Option ℤ
  duration : Option ℤ
  priority : Option ℤ
deriving DecidableEq, Repr

/-- `PaperRaceGrid`: the cell dict (key present = in range), the start and
destination areas, and the sparse effect map. Identical in both engine
modules. -/
structure PRGrid where
  cells : List (Pt × PaperRacePointType)
  startarea : List Pt
  destarea : List Pt
  effects : List (Pt × EffTemplate)
deriving DecidableEq, Repr

/-- `grid[position]` (`self.grid.get(position)`). -/
def getType (g : PRGrid) (p : Pt) : Option PaperRacePointType :=
  alookup g.cells p

/-- `PaperRaceGrid.in_range`. -/
def in_range (g : PRGrid) (p : Pt) : Bool :=
  (getType g p).isSome

/-- `PaperRaceGrid.is_accessable`: in range and not a `BLOCK`. -/
def is_accessable (g : PRGrid) (p : Pt) : Bool :=
  match getType g p with
  | none => false
  | some t => t ≠ PaperRacePointType.BLOCK

/-- `PaperRaceGrid.is_reachable`: every point of `line(start, dest)` is
accessible. -/
def is_reachable (g : PRGrid) (s d : Pt) : Bool :=
  (lineP s d).all (is_accessable g)

/-- The eight neighbour offsets, in the order of the Python source. -/
def nbOffsets : List Pt :=
  [(0, 1), (0, -1), (1, 0), (-1, 0), (1, -1), (-1, -1), (-1, 1), (1, 1)]

/-- `PaperRaceGrid.neighbours`: the accessible Chebyshev neighbours. -/
def neighboursP (g : PRGrid) (p : Pt) : List Pt :=
  (nbOffsets.map (padd p)).filter (is_accessable g)

/-! ### Effects (`PREffect` and subclasses) -/

/-- `PREffectType`. -/
inductive PREffectType
  | SpeedEffect
  | TargetAreaEffect
deriving DecidableEq, Repr

/-- The concrete effect subclass and its parameters:
`PRMaxSpeedEffect` (also `PRCrashEffect`/`PRCollisionEffect`),
`PRMultiSpeedEffect` (also `PRSandEffect`), `PRBiggerTargetAreaEffect`. -/
inductive EffVariant
  | maxSpeed (max_speed : ℤ)
  | multiSpeed (multiplier : ℚ)
  | biggerTargetArea
deriving DecidableEq, Repr

/-- A live effect attached to a racer. -/
structure EffectInst where
  variant : EffVariant
  duration : ℤ
  priority : ℤ
deriving DecidableEq, Repr

/-- The `PREffectType` set by the subclass constructors. -/
def EffectInst.etype (e : EffectInst) : PREffectType :=
  match e.variant with
  | .maxSpeed _ => .SpeedEffect
  | .multiSpeed _ => .SpeedEffect
  | .biggerTargetArea => .TargetAreaEffect

/-- `PRCrashEffect(racer)` = `PRMaxSpeedEffect(racer, 10, 0, 5)`. -/
def crashEffect : EffectInst := ⟨.maxSpeed 0, 10, 5⟩

/-- `PREffectConfig.createNewEffectObj` (note: the `MAXSPEED` branch reads
the cap from the `multiplier` key). -/
def createNewEffectObj (t : EffTemplate) : EffectInst :=
  match t.kind with
  | .SAND => ⟨.multiSpeed (1/2), 1, 1⟩
  | .MULTISPEED => ⟨.multiSpeed ((t.multiplier.getD 0 : ℤ) : ℚ), 1, t.priority.getD 1⟩
  | .MAXSPEED => ⟨.maxSpeed (t.multiplier.getD 1), t.duration.getD 5, t.priority.getD 1⟩
  | .BIGGERTARGETAREA => ⟨.biggerTargetArea, t.duration.getD 5, t.priority.getD 1⟩

/-- The rescaled speed `round((cap / abs(speed)) * speed)` of the
max-speed effect: the exact rational `(cap * x) / m` rounded half-to-even
componentwise (`scaleRound_eq_roundQ` restates it in the source's
`(cap/m) * x` form). -/
def scaleRound (cap m : ℤ) (s : Pt) : Pt :=
  (roundHalfEven (cap * s.1) m, roundHalfEven (cap * s.2) m)

/-- `round(multiplier * speed)` of the multi-speed effect. -/
def multRound (mult : ℚ) (s : Pt) : Pt :=
  (roundQ (mult * (s.1 : ℚ)), roundQ (mult * (s.2 : ℚ)))

/-! The racer state. `id`, `grid` and `gamestate` back-references are kept
outside the record: the grid is passed explicitly and the id is the slot
(0 or 1) of the racer inside the game state. -/

/-- `PaperRacer`'s mutable per-racer state. -/
structure RacerS where
  position : Pt
  speed : Pt
  path : List Pt
  possible_next_positions : List Pt
  crash_position : Option Pt
  effects : List EffectInst
deriving DecidableEq, Repr

/-- The union-of-neighbourhoods rewrite done by
`PRBiggerTargetAreaEffect.apply` (Python builds a `set`; the embedding
keeps first occurrences, Python's set order is implementation-defined). -/
def biggerTargets (g : PRGrid) (ps : List Pt) : List Pt :=
  (ps.flatMap (neighboursP g)).dedup

/-- One `effect.apply()` in the consolidated engine
(`src/game/gamestate.py`): decrement the duration unless it is already 0;
`PRMaxSpeedEffect` rescales only when `abs(speed) > max_speed`. -/
def applyEffOnceC (g : PRGrid) (e : EffectInst) (r : RacerS) : EffectInst × RacerS :=
  if e.duration = 0 then (e, r)
  else
    let e2 : EffectInst := ⟨e.variant, e.duration - 1, e.priority⟩
    match e.variant with
    | .maxSpeed cap =>
        if cap < chebAbs r.speed then
          (e2, {r with speed := scaleRound cap (chebAbs r.speed) r.speed})
        else (e2, r)
    | .multiSpeed mult =>
        if 0 < chebAbs r.speed then
          (e2, {r with speed := multRound mult r.speed})
        else (e2, r)
    | .biggerTargetArea =>
        (e2, {r with possible_next_positions := biggerTargets g r.possible_next_positions})

/-- One `effect.apply()` in the legacy engine (`src/gamestate.py`): its
`PRMaxSpeedEffect.apply` rescales whenever `abs(speed) > 0`, not only
above the cap. -/
def applyEffOnceL (g : PRGrid) (e : EffectInst) (r : RacerS) : EffectInst × RacerS :=
  if e.duration = 0 then (e, r)
  else
    let e2 : EffectInst := ⟨e.variant, e.duration - 1, e.priority⟩
    match e.variant with
    | .maxSpeed cap =>
        if 0 < chebAbs r.speed then
          (e2, {r with speed := scaleRound cap (chebAbs r.speed) r.speed})
        else (e2, r)
    | .multiSpeed mult =>
        if 0 < chebAbs r.speed then
          (e2, {r with speed := multRound mult r.speed})
        else (e2, r)
    | .biggerTargetArea =>
        (e2, {r with possible_next_positions := biggerTargets g r.possible_next_positions})

/-- The traversal of `_apply_effects`: walk the effect list in order,
apply every effect of the requested type, and drop the ones whose
duration has reached 0 after applying. -/
def applyEffectsGo (ap : EffectInst → RacerS → EffectInst × RacerS) (t : PREffectType) :
    List EffectInst → RacerS → List EffectInst × RacerS
  | [], r => ([], r)
  | e :: es, r =>
    if e.etype = t then
      let (e2, r2) := ap e r
      let (es2, r3) := applyEffectsGo ap t es r2
      ((if e2.duration = 0 then es2 else e2 :: es2), r3)
    else
      let (es2, r2) := applyEffectsGo ap t es r
      (e :: es2, r2)

/-- `PaperRacer._apply_effects(effect_type)`. -/
def applyEffects (ap : EffectInst → RacerS → EffectInst × RacerS) (t : PREffectType)
    (r : RacerS) : RacerS :=
  let (es, r2) := applyEffectsGo ap t r.effects r
  {r2 with effects := es}

/-- `PaperRacer.add_effect`: append then stable-sort by priority. On the
already-sorted effect list this is exactly inserting the new effect after
every effect of priority ≤ its own. -/
def addEffect (e : EffectInst) : List EffectInst → List EffectInst
  | [] => [e]
  | x :: xs => if x.priority ≤ e.priority then x :: addEffect e xs else e :: x :: xs

/-- The candidate computation shared by both engines:
`[position+speed] + neighbours(position+speed)` filtered by
`is_reachable(position, ·)`. -/
def computeCandidates (g : PRGrid) (r : RacerS) : List Pt :=
  ((padd r.position r.speed) :: neighboursP g (padd r.position r.speed)).filter
    (fun p => is_reachable g r.position p)

/-- The crash-fallback walk: scan the rasterized line, remembering the
last accessible point, and stop at the first inaccessible one. `acc` is
the value `crash_position` holds when the loop starts. -/
def crashWalk (g : PRGrid) : List Pt → Option Pt → Option Pt
  | [], acc => acc
  | p :: ps, acc => if is_accessable g p then crashWalk g ps (some p) else acc

/-- `PaperRacer._calc_possible_next_positions` of the consolidated engine:
it first resets `crash_position` to `None`. -/
def calcC (g : PRGrid) (r : RacerS) : RacerS :=
  let cands := computeCandidates g r
  { r with possible_next_positions := cands,
           crash_position :=
             if cands = [] then
               crashWalk g (lineP r.position (padd r.position r.speed)) none
             else none }

/-- `PaperRacer.calc_possible_next_positions` of the legacy engine: it
clears the candidate list but does **not** reset `crash_position`, so a
stale fallback survives a recomputation that finds candidates. -/
def calcL (g : PRGrid) (r : RacerS) : RacerS :=
  let cands := computeCandidates g r
  { r with possible_next_positions := cands,
           crash_position :=
             if cands = [] then
               crashWalk g (lineP r.position (padd r.position r.speed)) r.crash_position
             else r.crash_position }

/-- `PaperRacer.__init__` (identical effect in both engines): zero speed,
singleton path, candidates computed, then `crash_position = None`
assigned afterwards, wiping whatever the computation stored there. -/
def initRacer (g : PRGrid) (pos : Pt) : RacerS :=
  let r0 : RacerS := ⟨pos, (0, 0), [pos], [], none, []⟩
  let r1 := calcC g r0
  {r1 with crash_position := none}

/-! ### Game state (`PaperRaceGameState`) -/

/-- `PaperRaceGameState` after `load_map`: `load_map` creates exactly the
two racers `racer[0]` and `racer[1]`, so the racer dict is modelled as the
two fields `r0`, `r1`. -/
structure GState where
  grid : PRGrid
  r0 : RacerS
  r1 : RacerS
  scoreboard : List (ℕ × ℕ)
  finished : Bool
  current_racer_id : ℕ
deriving DecidableEq, Repr

/-- `self.racer[i]` (any index other than 1 reads slot 0; the engines only
ever use ids 0 and 1). -/
def getRacer (s : GState) (i : ℕ) : RacerS :=
  if i = 1 then s.r1 else s.r0

def setRacer (s : GState) (i : ℕ) (r : RacerS) : GState :=
  if i = 1 then {s with r1 := r} else {s with r0 := r}

/-- `PaperRaceGameState.racer_on_position`: scan the racers in id order
and return the id of the first racer standing on `p`. -/
def racerOnPosition (s : GState) (p : Pt) : Option ℕ :=
  if s.r0.position = p then some 0
  else if s.r1.position = p then some 1
  else none

/-- `PaperRaceGameState.load_map` with the two `random.choice` start
cells made explicit parameters. -/
def loadGame (g : PRGrid) (p0 p1 : Pt) : GState :=
  { grid := g, r0 := initRacer g p0, r1 := initRacer g p1,
    scoreboard := [], finished := false, current_racer_id := 0 }

/-- The common tail of `PaperRacer.goto` once `new_position` is fixed:
set the position, extend the path, pick up a terrain effect
(`_evaluate_position`), apply speed effects, recompute candidates, apply
target-area effects. Parameterized by the engine's effect application and
candidate recomputation. -/
def gotoTail (ap : PRGrid → EffectInst → RacerS → EffectInst × RacerS)
    (calcFn : PRGrid → RacerS → RacerS) (g : PRGrid) (r : RacerS) (newPos : Pt) : RacerS :=
  let r1 : RacerS := {r with position := newPos, path := r.path ++ [newPos]}
  let r2 : RacerS :=
    if getType g r1.position = some PaperRacePointType.EFFECT then
      match alookup g.effects r1.position with
      | some t => {r1 with effects := addEffect (createNewEffectObj t) r1.effects}
      | none => r1
    else r1
  let r3 := applyEffects (ap g) PREffectType.SpeedEffect r2
  let r4 := calcFn g r3
  applyEffects (ap g) PREffectType.TargetAreaEffect r4

/-- Result of a `PaperRacer.goto` call: the Python return value with the
post-state, or an uncaught exception escaping from the collision branch,
with the mutations performed before the raise: `attrError` for the
consolidated engine's misnamed method call, `indexError` for the
`line[1]` subscript on the one-point line of two racers sharing a cell
(raised, in both engines, before any mutation). -/
inductive GotoOut
  | ok (moved : Bool) (s : GState)
  | attrError (s : GState)
  | indexError (s : GState)
deriving DecidableEq, Repr

/-- `PaperRacer.goto` of the legacy engine (`src/gamestate.py`), acting on
racer `i` of the game state. In the collision branch the code evaluates
`line = grid.line(other.position, self.position)` and then
`new_position = line[1]` before any mutation: when the two racers occupy
one cell the line is the single point and the subscript raises
`IndexError`, leaving every racer unchanged. -/
def racerGotoL (s : GState) (i : ℕ) (target : Pt) : GotoOut :=
  let r := getRacer s i
  match r.crash_position with
  | some cp =>
      -- crash pending: the target argument is not consulted
      let r2 : RacerS := {r with crash_position := none,
                                 effects := addEffect crashEffect r.effects,
                                 speed := (0, 0)}
      .ok true (setRacer s i (gotoTail applyEffOnceL calcL s.grid r2 cp))
  | none =>
    if target ∈ r.possible_next_positions then
      match racerOnPosition s target with
      | some j =>
        if j = i then
          let r2 : RacerS := {r with speed := psub target r.position}
          .ok true (setRacer s i (gotoTail applyEffOnceL calcL s.grid r2 target))
        else
          -- collision: back off to line[1] of line(other.position, self.position);
          -- apply (without storing) a PRMaxSpeedEffect(other, 2, 0, 10) to the other
          -- racer, recompute its candidates, and attach PRMaxSpeedEffect(self, 1, 0, 10)
          let other := getRacer s j
          if other.position = r.position then .indexError s
          else
            let newPos := (lineP other.position r.position).getD 1 (0, 0)
            let other2 := (applyEffOnceL s.grid ⟨.maxSpeed 0, 2, 10⟩ other).2
            let other3 := calcL s.grid other2
            let s2 := setRacer s j other3
            let r2 : RacerS := {r with effects := addEffect ⟨.maxSpeed 0, 1, 10⟩ r.effects,
                                       speed := psub newPos r.position}
            .ok true (setRacer s2 i (gotoTail applyEffOnceL calcL s2.grid r2 newPos))
      | none =>
          let r2 : RacerS := {r with speed := psub target r.position}
          .ok true (setRacer s i (gotoTail applyEffOnceL calcL s.grid r2 target))
    else .ok false s

/-- `PaperRacer.goto` of the consolidated engine
(`src/game/gamestate.py`). Its collision branch first evaluates
`new_position = line[1]` — raising `IndexError` with no mutation when the
two racers occupy one cell — and then calls
`other_racer.calc_possible_next_positions()`, but the class only defines
`_calc_possible_next_positions`, so that call raises `AttributeError`
after the collision effect has already mutated the other racer's speed
and before any mutation of the moving racer. -/
def racerGotoC (s : GState) (i : ℕ) (target : Pt) : GotoOut :=
  let r := getRacer s i
  match r.crash_position with
  | some cp =>
      let r2 : RacerS := {r with crash_position := none,
                                 effects := addEffect crashEffect r.effects,
                                 speed := (0, 0)}
      .ok true (setRacer s i (gotoTail applyEffOnceC calcC s.grid r2 cp))
  | none =>
    if target ∈ r.possible_next_positions then
      match racerOnPosition s target with
      | some j =>
        if j = i then
          let r2 : RacerS := {r with speed := psub target r.position}
          .ok true (setRacer s i (gotoTail applyEffOnceC calcC s.grid r2 target))
        else
          let other := getRacer s j
          if other.position = r.position then .indexError s
          else
            let other2 := (applyEffOnceC s.grid ⟨.maxSpeed 0, 2, 10⟩ other).2
            .attrError (setRacer s j other2)
      | none =>
          let r2 : RacerS := {r with speed := psub target r.position}
          .ok true (setRacer s i (gotoTail applyEffOnceC calcC s.grid r2 target))
    else .ok false s

/-- `PaperRaceGameState.next_player`, with an explicit recursion bound
(with two racers and a not-yet-full scoreboard, one or two steps always
reach a free id, so the bound 3 used by `nextPlayer` is never hit). -/
def nextPlayerGo : ℕ → GState → GState
  | 0, s => s
  | n + 1, s =>
    if 2 ≤ s.scoreboard.length then {s with finished := true}
    else
      let c := (s.current_racer_id + 1) % 2
      let s2 : GState := {s with current_racer_id := c}
      if haskey s2.scoreboard c then nextPlayerGo n s2 else s2

def nextPlayer (s : GState) : GState := nextPlayerGo 3 s

/-- The scoreboard/turn bookkeeping shared by both `goto` methods of
`PaperRaceGameState`: record the finisher, then rotate the turn. -/
def gameTail (s : GState) : GState :=
  let s2 :=
    if (getRacer s s.current_racer_id).position ∈ s.grid.destarea then
      {s with scoreboard := aset s.scoreboard s.current_racer_id
                              (getRacer s s.current_racer_id).path.length}
    else s
  nextPlayer s2

/-- `PaperRaceGameState.goto` of the legacy engine. (On success the Python
method falls through and returns `None`; the Boolean here is `true` for a
completed move and `false` for a rejected one; an exception of the racer's
`goto` propagates.) -/
def gameGotoL (s : GState) (target : Pt) : GotoOut :=
  match racerGotoL s s.current_racer_id target with
  | .ok true s2 => .ok true (gameTail s2)
  | .ok false s2 => .ok false s2
  | .attrError s2 => .attrError s2
  | .indexError s2 => .indexError s2

/-- `PaperRaceGameState.goto` of the consolidated engine (returns `True` /
`False`, or propagates the collision branch's exception). -/
def gameGotoC (s : GState) (target : Pt) : GotoOut :=
  match racerGotoC s s.current_racer_id target with
  | .attrError s2 => .attrError s2
  | .indexError s2 => .indexError s2
  | .ok false s2 => .ok false s2
  | .ok true s2 => .ok true (gameTail s2)

/-- The state carried by a `goto` outcome. -/
def gotoOutState : GotoOut → GState
  | .ok _ s => s
  | .attrError s => s
  | .indexError s => s

/-- Whether a `goto` outcome is a completed move. -/
def gotoOutOk : GotoOut → Bool
  | .ok b _ => b
  | .attrError _ => false
  | .indexError _ => false

/-! ### Agents (`src/game/agent.py`)

The per-agent heuristic dict `h` is modelled as a total function
`Pt → ℤ`: the theorems below quantify over `h` and only concern code
paths that do not depend on its values (a missing key raises `KeyError`
in Python). -/

/-- `PRAgent.apply_speed_effect` (the same code is duplicated in
`SimplePRAgent` and `AStarPRAgent`): scale the speed by the terrain
effect under `pos`, then `round`. -/
def agentApplySpeedEffect (g : PRGrid) (pos speed : Pt) : Pt :=
  match alookup g.effects pos with
  | some t =>
    match t.kind with
    | .SAND | .MULTISPEED =>
        (t.multiplier.getD 0 * speed.1, t.multiplier.getD 0 * speed.2)
    | .MAXSPEED =>
        if t.maxspeed.getD 0 < chebAbs speed then
          scaleRound (t.maxspeed.getD 0) (chebAbs speed) speed
        else speed
    | .BIGGERTARGETAREA => speed
  | none => speed

/-- Stable insertion used to model Python's stable `sorted(..., key=h)`. -/
def insertByH (h : Pt → ℤ) (x : Pt) : List Pt → List Pt
  | [] => [x]
  | y :: ys => if h y ≤ h x then y :: insertByH h x ys else x :: y :: ys

def sortedByH (h : Pt → ℤ) (l : List Pt) : List Pt :=
  l.foldl (fun acc x => insertByH h x acc) []

/-- `SimplePRAgent2.neighbours`: best, median and worst accessible
neighbour by heuristic value. -/
def agent2Neighbours (g : PRGrid) (h : Pt → ℤ) (pos : Pt) : List Pt :=
  let nh := sortedByH h (neighboursP g pos)
  match nh with
  | [] => []
  | x :: _ => [x, nh.getD (nh.length / 2) x, nh.getLastD x]

/-- The lexicographic `(float, int)` score tuples of `SimplePRAgent2`;
`⊤` is the initial `float("inf")`. -/
abbrev Score := WithTop ℤ × ℤ

def scoreLtB (a b : Score) : Bool :=
  decide (a.1 < b.1) || (decide (a.1 = b.1) && decide (a.2 < b.2))

/-- Python `min(a, b)`: keeps `a` unless `b` is strictly smaller. -/
def scoreMin (a b : Score) : Score := if scoreLtB b a then b else a

/-- `SimplePRAgent2._score(pos, old_pos, depth)`. -/
def simple2Score (g : PRGrid) (h : Pt → ℤ) (racer : RacerS) :
    ℕ → Pt → Pt → Score
  | 0, pos, _ =>
    if pos ∈ g.destarea ∧ pos ≠ racer.position then ((0 : ℤ), 0)
    else ((h pos : ℤ), 0)
  | d + 1, pos, old_pos =>
    if pos ∈ g.destarea ∧ pos ≠ racer.position then ((0 : ℤ), -((d : ℤ) + 1))
    else if pos ∈ racer.path then ((h pos + 1 : ℤ), -((d : ℤ) + 1))
    else
      let speed := agentApplySpeedEffect g pos (psub pos old_pos)
      let nh := agent2Neighbours g h (padd pos speed)
      if nh = [] then ((h pos : ℤ), -((d : ℤ) + 1))
      else
        nh.foldl
          (fun best n =>
            if is_reachable g pos n then scoreMin best (simple2Score g h racer d n pos)
            else best)
          ((h pos : ℤ), -((d : ℤ) + 1))

/-- The candidate loop of `SimplePRAgent2.next_position`: early return on
a destination candidate, skip the racer's own cell, redirect an occupied
candidate to the back-off point `line(candidate, position)[1]`, otherwise
keep the best-scoring position. -/
def simple2Loop (s : GState) (h : Pt → ℤ) (i : ℕ) (racer : RacerS) :
    List Pt → Score → Option Pt → Option Pt
  | [], _, best => best
  | p :: rest, bs, best =>
    if p ∈ s.grid.destarea then some p
    else if p = racer.position then simple2Loop s h i racer rest bs best
    else
      -- `new_pos`/`old_pos`: both rebound to `line(new_pos, position)[1]`
      -- when another racer occupies the candidate
      let npop : Pt × Pt :=
        match racerOnPosition s p with
        | some j =>
          if j ≠ i then
            ((lineP p racer.position).getD 1 (0, 0), (lineP p racer.position).getD 1 (0, 0))
          else (p, racer.position)
        | none => (p, racer.position)
      let sc := simple2Score s.grid h racer 5 npop.1 npop.2
      if scoreLtB sc bs then simple2Loop s h i racer rest sc (some npop.1)
      else simple2Loop s h i racer rest bs best

/-- `SimplePRAgent2.next_position` for the agent steering racer `i`. -/
def simple2NextPosition (s : GState) (h : Pt → ℤ) (i : ℕ) : Option Pt :=
  let racer := getRacer s i
  if racer.possible_next_positions = [] then racer.crash_position
  else simple2Loop s h i racer racer.possible_next_positions ((⊤ : WithTop ℤ), 0) none

/-! `AStarPRAgent`. Heap entries are the tuples
`(f, position, speed, depth)` pushed onto the `heapq` priority queue;
Python compares them lexicographically, so the pop below extracting a
minimal entry (first occurrence on full ties) is observationally the
same as the binary heap. -/

abbrev HeapE := ℤ × Pt × Pt × ℤ

def ptLeB (p q : Pt) : Bool :=
  decide (p.1 < q.1) || (decide (p.1 = q.1) && decide (p.2 ≤ q.2))

def heapLeB (a b : HeapE) : Bool :=
  decide (a.1 < b.1) ||
    (decide (a.1 = b.1) &&
      (ptLeB a.2.1 b.2.1 &&
        (!(a.2.1 = b.2.1 : Bool) ||
          (ptLeB a.2.2.1 b.2.2.1 &&
            (!(a.2.2.1 = b.2.2.1 : Bool) || decide (a.2.2.2 ≤ b.2.2.2))))))

/-- Extract a minimal heap entry (the heap order is total, so any minimal
entry is the value `heappop` returns). -/
def popMin : List HeapE → Option (HeapE × List HeapE)
  | [] => none
  | e :: es =>
    match popMin es with
    | none => some (e, [])
    | some (m, rest) => if heapLeB e m then some (e, es) else some (m, e :: rest)

/-- Search state of `AStarPRAgent.a_star_search`: the open list, the
`costs` and `came_from` dicts, and the function-local `speed` variable
(the loop body reads the `speed` left over from the seeding loop rather
than the popped `c_speed`, so it must be threaded through iterations;
the dead `closedlist` — written but never read — is omitted). -/
structure AStarState where
  openlist : List HeapE
  costs : List (Pt × ℤ)
  came_from : List (Pt × Pt)
  speedVar : Pt
deriving Repr

/-- One iteration of the `while openlist` loop. -/
def aStarStep (g : PRGrid) (h : Pt → ℤ) (st : AStarState) : AStarState :=
  match popMin st.openlist with
  | none => st
  | some ((_, c_pos, _, d), rest) =>
    let speed := agentApplySpeedEffect g c_pos st.speedVar
    let target_pos := padd c_pos speed
    let next_positions :=
      (if is_reachable g c_pos target_pos then [target_pos] else []) ++
        neighboursP g (padd c_pos speed)
    let cc := (alookup st.costs c_pos).getD 0
    let upd := next_positions.foldl
      (fun (acc : List HeapE × List (Pt × ℤ) × List (Pt × Pt)) n_pos =>
        let (ol, cs, cf) := acc
        let expected := cc + 1
        let improve :=
          match alookup cs n_pos with
          | none => true
          | some v => expected < v
        if improve then
          ((h n_pos + expected, n_pos, psub n_pos c_pos, d - 1) :: ol,
           aset cs n_pos expected, aset cf n_pos c_pos)
        else (ol, cs, cf))
      (rest, st.costs, st.came_from)
    ⟨upd.1, upd.2.1, upd.2.2, speed⟩

/-- The `while openlist` loop with an explicit iteration bound (the
theorems below only concern runs in which the open list is empty from the
start, where the bound is irrelevant). -/
def aStarLoop (g : PRGrid) (h : Pt → ℤ) : ℕ → AStarState → AStarState
  | 0, st => st
  | n + 1, st =>
    match st.openlist with
    | [] => st
    | _ => aStarLoop g h n (aStarStep g h st)

/-- `AStarPRAgent.a_star_search(depth)`: seed the frontier from the
candidate set, run the loop, and return `(None, came_from)` (the early
returns of the source are commented out, so the target node is always
`None`). -/
def aStarSearch (s : GState) (h : Pt → ℤ) (i : ℕ) (depth : ℤ) (fuel : ℕ) :
    Option Pt × List (Pt × Pt) :=
  let racer := getRacer s i
  let seeded := racer.possible_next_positions.foldl
    (fun (acc : AStarState) c =>
      ⟨(h c, c, psub c racer.position, depth) :: acc.openlist,
       aset acc.costs c 1, aset acc.came_from c racer.position,
       psub c racer.position⟩)
    ⟨[], [], [], (0, 0)⟩
  let final := aStarLoop s.grid h fuel seeded
  (none, final.came_from)

/-- `AStarPRAgent.lowest_value_node`: first key of `came_from` (iterated
in insertion order) with minimal heuristic value. -/
def lowestValueNode (h : Pt → ℤ) (cf : List (Pt × Pt)) : Option Pt :=
  cf.foldl
    (fun acc kv =>
      match acc with
      | none => some kv.1
      | some m => if h kv.1 < h m then some kv.1 else some m)
    none

/-- The predecessor walk of `AStarPRAgent.build_path`, with a bound on
the chain length (the Python `while` follows `came_from` links). -/
def buildPathGo (cf : List (Pt × Pt)) (start : Pt) : ℕ → Pt → List Pt → List Pt
  | 0, _, acc => acc
  | n + 1, node, acc =>
    if node = start then acc
    else
      match alookup cf node with
      | none => acc
      | some prev => buildPathGo cf start n prev (acc ++ [node])

/-- `AStarPRAgent.build_path`. -/
def buildPath (cf : List (Pt × Pt)) (start e : Pt) : List Pt :=
  if start = e then [start]
  else if ¬ (start ∈ cf.map Prod.snd) ∨ ¬ (haskey cf e) then []
  else (buildPathGo cf start (cf.length + 1) e []) ++ [start]

/-- `AStarPRAgent.next_position`. -/
def astarNextPosition (s : GState) (h : Pt → ℤ) (i : ℕ) : Option Pt :=
  let (target?, came_from) := aStarSearch s h i 1000 1000000
  if came_from.length = 0 then (getRacer s i).crash_position
  else
    let target :=
      match target? with
      | some t => some t
      | none => lowestValueNode h came_from
    match target with
    | none => none
    | some t =>
      let path := buildPath came_from (getRacer s i).position t
      path.getD (path.length - 2) (0, 0)

/-! ### The heuristic-field builder (`PRAgent._build_h`) -/

/-- State of the `_build_h` worklist relaxation: the `h` dict and the
FIFO queue (the `visited` set of the source is written but never read,
so it is omitted). -/
structure BHState where
  h : List (Pt × ℕ)
  queue : List Pt
deriving DecidableEq, Repr

/-- The edge cost from `current` (with known cost `hc`) to its neighbour
`n`, exactly as computed in the branch ladder of `_build_h`. -/
def bhCost (g : PRGrid) (hc : ℕ) (current n : Pt) : ℕ :=
  if getType g current = some PaperRacePointType.STREET then
    (if getType g n = some PaperRacePointType.STREET then hc + 5 else hc + 10)
  else if current ∈ g.destarea then hc
  else
    let base :=
      match alookup g.effects current with
      | some t =>
        match t.kind with
        | .SAND => hc + 10
        | .MULTISPEED => hc + 5
        | .MAXSPEED => hc + 10
        | .BIGGERTARGETAREA => hc + 1
      | none => hc + 5
    match alookup g.effects n with
    | some t => if t.kind = EffKind.SAND ∨ t.kind = EffKind.MAXSPEED then base + 10 else base
    | none => base

/-- The inner `for n in nh` loop of `_build_h`: relax every neighbour,
re-enqueueing improved ones. (The `grid[n] == BLOCK` guard is kept even
though `neighbours` already filters such cells.) -/
def bhProcess (g : PRGrid) (current : Pt) :
    List Pt → List (Pt × ℕ) → List Pt → List (Pt × ℕ) × List Pt
  | [], h, q => (h, q)
  | n :: ns, h, q =>
    if getType g n = some PaperRacePointType.BLOCK then bhProcess g current ns h q
    else
      let costs := bhCost g ((alookup h current).getD 0) current n
      match alookup h n with
      | none => bhProcess g current ns (aset h n costs) (q ++ [n])
      | some v =>
        if costs < v then bhProcess g current ns (aset h n costs) (q ++ [n])
        else bhProcess g current ns h q

/-- One iteration of the `while queue` loop: dequeue one cell and relax
its neighbours. -/
def bhStep (g : PRGrid) (st : BHState) : BHState :=
  match st.queue with
  | [] => st
  | current :: rest =>
    let hq := bhProcess g current (neighboursP g current) st.h rest
    ⟨hq.1, hq.2⟩

def bhRun (g : PRGrid) : ℕ → BHState → BHState
  | 0, st => st
  | n + 1, st => bhRun g n (bhStep g st)

/-- The initial state of `_build_h` for the seed cell chosen by
`random.choice(destarea)`. -/
def bhInit (seed : Pt) : BHState := ⟨[(seed, 0)], [seed]⟩

/-! ### Concrete scenarios

Small hand-laid maps (of the kind `load_from_bitmap` produces) together
with short games played on them. They witness the concrete behaviours the
theorems below refer to. -/

def zrange (x0 : ℤ) (n : ℕ) : List ℤ := (List.range n).map (fun k => x0 + k)

def rowCells (y : ℤ) (xs : List ℤ) (t : PaperRacePointType) :
    List (Pt × PaperRacePointType) :=
  xs.map (fun x => ((x, y), t))

/-- A 12×2 corridor: row 0 is street for `x ≤ 7` and blocked beyond, row
1 is street for `x ≤ 6` and blocked beyond. -/
def corridorCells : List (Pt × PaperRacePointType) :=
  rowCells 0 (zrange 0 8) .STREET ++ rowCells 0 (zrange 8 4) .BLOCK ++
  rowCells 1 (zrange 0 7) .STREET ++ rowCells 1 (zrange 7 5) .BLOCK

/-- Corridor map for the crash-branch scenario: racer 1 finishes at
`(1,1)` immediately, racer 0 accelerates down row 0 into the wall. -/
def gridA : PRGrid := ⟨corridorCells, [(0, 0), (0, 1)], [(1, 1)], []⟩

/-- Corridor map for the stale-fallback scenario: the destination is the
cell `(7,0)` nobody reaches during the trace. -/
def gridB : PRGrid := ⟨corridorCells, [(0, 0), (0, 1)], [(7, 0)], []⟩

/-- A fully open 10×2 map for the distance-3 collision scenario. -/
def gridOpen : PRGrid :=
  ⟨rowCells 0 (zrange 0 10) .STREET ++ rowCells 1 (zrange 0 10) .STREET,
   [(0, 0), (6, 0)], [(9, 1)], []⟩

/-- A 2×2 map where both racers finish in one move each. -/
def gridSq : PRGrid :=
  ⟨rowCells 0 (zrange 0 2) .STREET ++ rowCells 1 (zrange 0 2) .STREET,
   [(0, 0), (0, 1)], [(1, 0), (1, 1)], []⟩

/-- A 5×3 map in which the cell `(1,1)` is walled in by its eight
neighbours. -/
def gridBox : PRGrid :=
  ⟨(rowCells 0 (zrange 0 5) .STREET ++ rowCells 1 (zrange 0 5) .STREET ++
      rowCells 2 (zrange 0 5) .STREET).map
      (fun cv =>
        if cv.1 ∈ ([((0 : ℤ), (0 : ℤ)), (1, 0), (2, 0), (0, 1), (2, 1),
                     (0, 2), (1, 2), (2, 2)] : List Pt)
        then (cv.1, .BLOCK) else cv),
   [(1, 1), (4, 0)], [(4, 1)], []⟩

/-- Crash-branch trace (legacy engine, `gridA`): racer 1 finishes at once,
then racer 0 moves `(0,0) → (1,0) → (3,0) → (6,0)`, ending crash-pending
with fallback `(7,0)` and an empty candidate set. -/
def traceA : Bool × GState :=
  let s0 := loadGame gridA (0, 0) (0, 1)
  let s1 := gameGotoL s0 (1, 0)
  let s2 := gameGotoL (gotoOutState s1) (1, 1)
  let s3 := gameGotoL (gotoOutState s2) (3, 0)
  let s4 := gameGotoL (gotoOutState s3) (6, 0)
  (gotoOutOk s1 && gotoOutOk s2 && gotoOutOk s3 && gotoOutOk s4, gotoOutState s4)

/-- The crash-pending state then accepts the arbitrary target `(5,5)`. -/
def traceA2 : Bool × GState :=
  let t := gameGotoL traceA.2 (5, 5)
  (gotoOutOk t, gotoOutState t)

/-- Stale-fallback trace (legacy engine, `gridB`): racer 0 takes row 1 to
`(5,1)`, racer 1 accelerates down row 0 to `(6,0)` and becomes
crash-pending, and racer 0 then moves onto `(6,0)`, colliding. -/
def traceB : Bool × GState :=
  let s0 := loadGame gridB (0, 1) (0, 0)
  let t0 := gameGotoL s0 (1, 1)
  let t1 := gameGotoL (gotoOutState t0) (1, 0)
  let t2 := gameGotoL (gotoOutState t1) (3, 1)
  let t3 := gameGotoL (gotoOutState t2) (3, 0)
  let t4 := gameGotoL (gotoOutState t3) (5, 1)
  let t5 := gameGotoL (gotoOutState t4) (6, 0)
  let t6 := gameGotoL (gotoOutState t5) (6, 0)
  (gotoOutOk t0 && gotoOutOk t1 && gotoOutOk t2 && gotoOutOk t3 &&
    gotoOutOk t4 && gotoOutOk t5 && gotoOutOk t6, gotoOutState t6)

/-- Distance-3 collision setup (legacy engine, `gridOpen`): racer 1
stands on `(6,0)` by repeatedly targeting its own cell; racer 0 reaches
`(3,0)` with speed `(2,0)`. It is racer 0's turn. -/
def traceDpre : Bool × GState :=
  let s0 := loadGame gridOpen (0, 0) (6, 0)
  let t0 := gameGotoL s0 (1, 0)
  let t1 := gameGotoL (gotoOutState t0) (6, 0)
  let t2 := gameGotoL (gotoOutState t1) (3, 0)
  let t3 := gameGotoL (gotoOutState t2) (6, 0)
  (gotoOutOk t0 && gotoOutOk t1 && gotoOutOk t2 && gotoOutOk t3, gotoOutState t3)

/-- Racer 0 commits the move onto racer 1's cell `(6,0)` (a collision at
Chebyshev distance 3). -/
def traceD : Bool × GState :=
  let t := gameGotoL traceDpre.2 (6, 0)
  (gotoOutOk t, gotoOutState t)

/-! ### Auxiliary definitions for the claim developments -/

/-- The key list of a scoreboard dict (`dict` keys in insertion order). -/
def sbKeys (sb : List (ℕ × ℕ)) : List ℕ := sb.map Prod.fst

/-- The bookkeeping invariant of the consolidated game loop. -/
structure InvC (s : GState) : Prop where
  cur_lt : s.current_racer_id < 2
  keys_lt : ∀ k ∈ sbKeys s.scoreboard, k < 2
  keys_nodup : (sbKeys s.scoreboard).Nodup
  fin_iff : s.finished = true ↔ (0 ∈ sbKeys s.scoreboard ∧ 1 ∈ sbKeys s.scoreboard)
  cur_free : s.finished = false → s.current_racer_id ∉ sbKeys s.scoreboard

/-- States reachable from `s0` by successful `PaperRaceGameState.goto`
calls of the consolidated engine. -/
inductive ReachC (s0 : GState) : GState → Prop
  | refl : ReachC s0 s0
  | step {s s2 : GState} (t : Pt) :
      ReachC s0 s → gameGotoC s t = GotoOut.ok true s2 → ReachC s0 s2

/-- Two successful advances on the square map: both racers finish. -/
def sq1 : GotoOut := gameGotoC (loadGame gridSq (0, 0) (0, 1)) (1, 0)

def sq2 : GotoOut := gameGotoC (gotoOutState sq1) (1, 1)

/-- Number of grid cells without an `h` entry. -/
def bhUc (g : PRGrid) (h : List (Pt × ℕ)) : ℕ :=
  (g.cells.map Prod.fst).countP (fun p => decide (alookup h p = none))

/-- Total of all `h` values. -/
def bhSum (h : List (Pt × ℕ)) : ℕ := (h.map Prod.snd).sum

/-- The value invariant of the heuristic builder: the seed keeps cost 0,
every other assigned cell has a strictly positive cost. -/
def BHInv (seed : Pt) (h : List (Pt × ℕ)) : Prop :=
  alookup h seed = some 0 ∧ ∀ p v, alookup h p = some v → p ≠ seed → 1 ≤ v

/-- A two-cell street map whose destination is the cell `(0,0)`. -/
def gridW : PRGrid :=
  ⟨[(((0 : ℤ), (0 : ℤ)), .STREET), (((1 : ℤ), (0 : ℤ)), .STREET)], [(1, 0)], [(0, 0)], []⟩

/-- The value `simple2Loop` can return: `None`, a candidate from the full
candidate list, or a collision back-off point of an occupied candidate. -/
def Simple2Result (s : GState) (i : ℕ) (racer : RacerS) (full : List Pt)
    (res : Option Pt) : Prop :=
  res = none ∨
    ∃ p, res = some p ∧
      (p ∈ full ∨
        ∃ c ∈ full, (∃ j, racerOnPosition s c = some j ∧ j ≠ i) ∧
          p = (lineP c racer.position).getD 1 (0, 0))

/-- The heuristic field actually built for `gridBox` (seeded at the only
destination cell `(4,1)`, so the `random.choice` is determined), read as
a total function. -/
def hBox (p : Pt) : ℤ :=
  (((alookup (bhRun gridBox 100 (bhInit (4, 1))).h p).getD 0 : ℕ) : ℤ)

/-! ### crashWalk lemmas -/

theorem crashWalk_access (g : PRGrid) :
    ∀ (ps : List Pt) (acc : Option Pt),
      (∀ c, acc = some c → is_accessable g c = true) →
      ∀ c, crashWalk g ps acc = some c → is_accessable g c = true := by
  intro ps
  induction ps with
  | nil => intro acc hacc c hc; exact hacc c hc
  | cons p ps ih =>
    intro acc hacc c hc
    unfold crashWalk at hc
    by_cases hp : is_accessable g p = true
    · rw [if_pos hp] at hc
      exact ih (some p) (fun c' hc' => by cases hc'; exact hp) c hc
    · rw [if_neg hp] at hc
      exact hacc c hc

theorem crashWalk_isSome (g : PRGrid) :
    ∀ (ps : List Pt) (c0 : Pt), (crashWalk g ps (some c0)).isSome = true := by
  intro ps
  induction ps with
  | nil => intro c0; rfl
  | cons p ps ih =>
    intro c0
    unfold crashWalk
    by_cases hp : is_accessable g p = true
    · rw [if_pos hp]; exact ih p
    · rw [if_neg hp]; rfl

/-! ### C3 -/

/-- C3 (amended, consolidated engine): the recomputation
`_calc_possible_next_positions` of `src/game/gamestate.py` — which resets
the crash fallback before recomputing — leaves a racer whose position is
accessible in exactly one of the two states: non-empty candidate set with
`None` fallback, or empty candidate set with an accessible fallback. (In
the legacy engine the recomputation keeps a stale fallback; see the
counterexample.) -/
theorem calcC_exactly_one (g : PRGrid) (r : RacerS)
    (hacc : is_accessable g r.position = true) :
    ((calcC g r).possible_next_positions ≠ [] ∧ (calcC g r).crash_position = none) ∨
    ((calcC g r).possible_next_positions = [] ∧
      ∃ c, (calcC g r).crash_position = some c ∧ is_accessable g c = true) := by
  have hfield : (calcC g r).possible_next_positions = computeCandidates g r := rfl
  have hcfield : (calcC g r).crash_position
      = (if computeCandidates g r = [] then
            crashWalk g (lineP r.position (padd r.position r.speed)) none
          else none) := rfl
  by_cases hc : computeCandidates g r = []
  · right
    rw [hfield, hcfield, if_pos hc]
    refine ⟨hc, ?_⟩
    have hhead := lineP_head r.position (padd r.position r.speed)
    cases hl : lineP r.position (padd r.position r.speed) with
    | nil => rw [hl] at hhead; cases hhead
    | cons a rest =>
      rw [hl] at hhead
      simp only [List.head?_cons, Option.some.injEq] at hhead
      subst hhead
      unfold crashWalk
      rw [if_pos hacc]
      have hsome := crashWalk_isSome g rest r.position
      cases hcw : crashWalk g rest (some r.position) with
      | none => rw [hcw] at hsome; cases hsome
      | some c =>
        refine ⟨c, rfl, ?_⟩
        exact crashWalk_access g rest (some r.position)
          (fun c' hc' => by cases hc'; exact hacc) c hcw
  · left
    rw [hfield, hcfield, if_neg hc]
    exact ⟨hc, rfl⟩

/-- C3 counterexample (legacy engine): after the reachable collision of
`traceB`, racer 1 simultaneously has a non-empty candidate set and the
stale crash fallback `(7,0)` — the state the claim says is never
reachable. -/
theorem c3_counterexample :
    traceB.1 = true ∧
    traceB.2.r1.possible_next_positions ≠ [] ∧
    traceB.2.r1.crash_position = some (7, 0) := by
  decide

/-- C3 witness: the consolidated recomputation applied to a freshly
created racer on the square map. -/
theorem c3_witness :
    is_accessable gridSq (initRacer gridSq (0, 0)).position = true ∧
    (((calcC gridSq (initRacer gridSq (0, 0))).possible_next_positions ≠ [] ∧
        (calcC gridSq (initRacer gridSq (0, 0))).crash_position = none) ∨
      ((calcC gridSq (initRacer gridSq (0, 0))).possible_next_positions = [] ∧
        ∃ c, (calcC gridSq (initRacer gridSq (0, 0))).crash_position = some c ∧
          is_accessable gridSq c = true)) :=
  ⟨by decide, calcC_exactly_one gridSq (initRacer gridSq (0, 0)) (by decide)⟩

/-! ### C8 -/

/-- `scaleRound` in the `(cap/m) * x` form of the source (over `ℚ`). -/
theorem scaleRound_eq_roundQ (cap : ℤ) {m : ℤ} (hm : 0 < m) (s : Pt) :
    scaleRound cap m s =
      (roundQ ((cap : ℚ) / (m : ℚ) * (s.1 : ℚ)), roundQ ((cap : ℚ) / (m : ℚ) * (s.2 : ℚ))) := by
  unfold scaleRound
  rw [roundHalfEven_eq_roundQ hm, roundHalfEven_eq_roundQ hm]
  have hmq : ((m : ℤ) : ℚ) ≠ 0 := by exact_mod_cast hm.ne'
  refine Prod.ext ?_ ?_
  · apply congrArg roundQ
    push_cast
    field_simp
  · apply congrArg roundQ
    push_cast
    field_simp

theorem roundHalfEven_scale_le {cap m x : ℤ} (hcap : 0 ≤ cap) (hm : 0 < m)
    (hx : |x| ≤ m) : |roundHalfEven (cap * x) m| ≤ cap := by
  rw [roundHalfEven_eq_roundQ hm]
  have hmq : (0 : ℚ) < (m : ℚ) := by exact_mod_cast hm
  have hcapq : (0 : ℚ) ≤ (cap : ℚ) := by exact_mod_cast hcap
  have hxq : |(x : ℚ)| ≤ (m : ℚ) := by
    rw [← Int.cast_abs]
    exact_mod_cast hx
  obtain ⟨hxl, hxu⟩ := abs_le.mp hxq
  have hub : ((cap * x : ℤ) : ℚ) / (m : ℚ) ≤ (cap : ℚ) := by
    rw [div_le_iff₀ hmq]
    push_cast
    nlinarith
  have hlb : (((-cap : ℤ)) : ℚ) ≤ ((cap * x : ℤ) : ℚ) / (m : ℚ) := by
    rw [le_div_iff₀ hmq]
    push_cast
    nlinarith
  have h1 := roundQ_le_of_le hub
  have h2 := le_roundQ_of_le hlb
  rw [abs_le]
  omega

/-- C8 (amended): the consolidated engine's `PRMaxSpeedEffect.apply`
(with a nonnegative configured cap and remaining duration) leaves a
velocity at or below the cap unchanged, and rescales a faster velocity to
`round((cap/|v|) * v)` componentwise, whose Chebyshev magnitude is then
exactly the cap. (The legacy engine's `apply` instead rescales every
non-zero velocity; see the counterexample.) -/
theorem c8_maxspeed_clamp (g : PRGrid) (e : EffectInst) (cap : ℤ) (r : RacerS)
    (hv : e.variant = EffVariant.maxSpeed cap) (hd : e.duration ≠ 0) (hcap : 0 ≤ cap) :
    (chebAbs r.speed ≤ cap → (applyEffOnceC g e r).2 = r) ∧
    (cap < chebAbs r.speed →
      (applyEffOnceC g e r).2.speed = scaleRound cap (chebAbs r.speed) r.speed ∧
      (applyEffOnceC g e r).2.speed =
        (roundQ ((cap : ℚ) / (chebAbs r.speed : ℚ) * (r.speed.1 : ℚ)),
         roundQ ((cap : ℚ) / (chebAbs r.speed : ℚ) * (r.speed.2 : ℚ))) ∧
      chebAbs (applyEffOnceC g e r).2.speed = cap) := by
  have hm0 : cap < chebAbs r.speed → 0 < chebAbs r.speed := fun h => lt_of_le_of_lt hcap h
  constructor
  · intro hle
    unfold applyEffOnceC
    rw [if_neg hd, hv]
    simp only
    rw [if_neg (by omega)]
  · intro hgt
    have hm := hm0 hgt
    have hspeed : (applyEffOnceC g e r).2.speed = scaleRound cap (chebAbs r.speed) r.speed := by
      unfold applyEffOnceC
      rw [if_neg hd, hv]
      simp only
      rw [if_pos hgt]
    refine ⟨hspeed, ?_, ?_⟩
    · rw [hspeed, scaleRound_eq_roundQ cap hm r.speed]
    · rw [hspeed]
      have hcheb : chebAbs (scaleRound cap (chebAbs r.speed) r.speed)
          = max |roundHalfEven (cap * r.speed.1) (chebAbs r.speed)|
                |roundHalfEven (cap * r.speed.2) (chebAbs r.speed)| := rfl
      rw [hcheb]
      have hx1 : |r.speed.1| ≤ chebAbs r.speed := le_max_left _ _
      have hx2 : |r.speed.2| ≤ chebAbs r.speed := le_max_right _ _
      have hb1 := roundHalfEven_scale_le hcap hm hx1
      have hb2 := roundHalfEven_scale_le hcap hm hx2
      have hdom : |r.speed.1| = chebAbs r.speed ∨ |r.speed.2| = chebAbs r.speed := by
        have hmx : chebAbs r.speed = max |r.speed.1| |r.speed.2| := rfl
        rw [hmx]
        rcases max_choice |r.speed.1| |r.speed.2| with h | h
        · exact Or.inl h.symm
        · exact Or.inr h.symm
      have hexact : ∀ x : ℤ, |x| = chebAbs r.speed →
          |roundHalfEven (cap * x) (chebAbs r.speed)| = cap := by
        intro x hx
        have : x = chebAbs r.speed ∨ x = -(chebAbs r.speed) := by
          rcases abs_choice x with h | h <;> omega
        rcases this with h | h
        · rw [h, roundHalfEven_mul_left cap hm]
          exact abs_of_nonneg hcap
        · have : cap * x = (-cap) * (chebAbs r.speed) := by rw [h]; ring
          rw [this, roundHalfEven_mul_left (-cap) hm, abs_neg]
          exact abs_of_nonneg hcap
      apply le_antisymm
      · exact max_le hb1 hb2
      · rcases hdom with h | h
        · calc cap = |roundHalfEven (cap * r.speed.1) (chebAbs r.speed)| := (hexact _ h).symm
            _ ≤ _ := le_max_left _ _
        · calc cap = |roundHalfEven (cap * r.speed.2) (chebAbs r.speed)| := (hexact _ h).symm
            _ ≤ _ := le_max_right _ _

/-- C8 counterexample (legacy engine): with cap 3 and velocity `(1,0)` —
magnitude 1, at or below the cap — the legacy `PRMaxSpeedEffect.apply`
still rescales, producing `(3,0)`: the velocity changes although its
magnitude did not exceed the cap. -/
theorem c8_counterexample :
    chebAbs ((1, 0) : Pt) ≤ 3 ∧
    (applyEffOnceL gridSq ⟨EffVariant.maxSpeed 3, 1, 1⟩
        ⟨(0, 0), (1, 0), [(0, 0)], [], none, []⟩).2.speed = (3, 0) ∧
    ((3, 0) : Pt) ≠ (1, 0) := by
  decide

/-- C8 witness: the consolidated clamp applied to velocity `(5,3)` with
cap 2 rescales to `(2,1)`, of Chebyshev magnitude exactly 2. -/
theorem c8_witness :
    (chebAbs ((5, 3) : Pt) ≤ 2 →
      (applyEffOnceC gridSq ⟨EffVariant.maxSpeed 2, 1, 1⟩
          ⟨(0, 0), (5, 3), [(0, 0)], [], none, []⟩).2
        = ⟨(0, 0), (5, 3), [(0, 0)], [], none, []⟩) ∧
    (2 < chebAbs ((5, 3) : Pt) →
      (applyEffOnceC gridSq ⟨EffVariant.maxSpeed 2, 1, 1⟩
          ⟨(0, 0), (5, 3), [(0, 0)], [], none, []⟩).2.speed
          = scaleRound 2 (chebAbs ((5, 3) : Pt)) (5, 3) ∧
      (applyEffOnceC gridSq ⟨EffVariant.maxSpeed 2, 1, 1⟩
          ⟨(0, 0), (5, 3), [(0, 0)], [], none, []⟩).2.speed =
        (roundQ ((2 : ℚ) / (chebAbs ((5, 3) : Pt) : ℚ) * ((5 : ℤ) : ℚ)),
         roundQ ((2 : ℚ) / (chebAbs ((5, 3) : Pt) : ℚ) * ((3 : ℤ) : ℚ))) ∧
      chebAbs (applyEffOnceC gridSq ⟨EffVariant.maxSpeed 2, 1, 1⟩
          ⟨(0, 0), (5, 3), [(0, 0)], [], none, []⟩).2.speed = 2) :=
  c8_maxspeed_clamp gridSq ⟨EffVariant.maxSpeed 2, 1, 1⟩ 2
    ⟨(0, 0), (5, 3), [(0, 0)], [], none, []⟩ rfl (by decide) (by decide)

/-! ### C6, C7 -/

/-- C6: `line(a,a)` is the single point `[a]`; for `a ≠ b`, `line(a,b)`
has exactly `distance(a,b) + 1` points, starting at `a` and ending at
`b`. -/
theorem c6_line_endpoints (a b : Pt) :
    lineP a a = [a] ∧
    (a ≠ b →
      (lineP a b).length = dist a b + 1 ∧
      (lineP a b).head? = some a ∧
      (lineP a b).getLast? = some b) :=
  ⟨lineP_self a, fun _ => ⟨lineP_length a b, lineP_head a b, lineP_getLast a b⟩⟩

/-- C6 witness: endpoints and length of the concrete line from `(0,0)` to
`(3,1)`. -/
theorem c6_witness :
    lineP ((0 : ℤ), (0 : ℤ)) ((0 : ℤ), (0 : ℤ)) = [((0 : ℤ), (0 : ℤ))] ∧
    ((lineP ((0 : ℤ), (0 : ℤ)) ((3 : ℤ), (1 : ℤ))).length = dist (0, 0) (3, 1) + 1 ∧
      (lineP ((0 : ℤ), (0 : ℤ)) ((3 : ℤ), (1 : ℤ))).head? = some (0, 0) ∧
      (lineP ((0 : ℤ), (0 : ℤ)) ((3 : ℤ), (1 : ℤ))).getLast? = some (3, 1)) :=
  ⟨(c6_line_endpoints (0, 0) (0, 0)).1,
   (c6_line_endpoints (0, 0) (3, 1)).2 (by decide)⟩

/-- C7: exchanging the endpoints of `line` yields the reversed point
sequence (with each intermediate point given by exact rational
interpolation rounded to the nearest grid point). -/
theorem c7_line_reverse (a b : Pt) : lineP b a = (lineP a b).reverse :=
  lineP_symm a b

/-! ### C10 -/

/-- C10 (amended): in the consolidated engine, a `goto` that enters the
collision branch (no crash pending, target a candidate, target occupied
by a different racer) never completes: with the two racers on distinct
cells it raises `AttributeError` — the branch calls
`other_racer.calc_possible_next_positions()` while the class only defines
`_calc_possible_next_positions` — after mutating only the other racer
through the collision effect; with the two racers on one cell it instead
raises `IndexError` at `new_position = line[1]` before any mutation. In
either case the move never returns `True`. -/
theorem c10_collision_never_completes (s : GState) (i j : ℕ) (t : Pt)
    (hcp : (getRacer s i).crash_position = none)
    (hmem : t ∈ (getRacer s i).possible_next_positions)
    (hro : racerOnPosition s t = some j)
    (hij : j ≠ i) :
    ((getRacer s j).position ≠ (getRacer s i).position →
      racerGotoC s i t =
        GotoOut.attrError
          (setRacer s j
            (applyEffOnceC s.grid ⟨EffVariant.maxSpeed 0, 2, 10⟩ (getRacer s j)).2)) ∧
    ((getRacer s j).position = (getRacer s i).position →
      racerGotoC s i t = GotoOut.indexError s) ∧
    ∀ s2 : GState, racerGotoC s i t ≠ GotoOut.ok true s2 := by
  have hbase : racerGotoC s i t =
      if (getRacer s j).position = (getRacer s i).position then GotoOut.indexError s
      else
        GotoOut.attrError
          (setRacer s j
            (applyEffOnceC s.grid ⟨EffVariant.maxSpeed 0, 2, 10⟩ (getRacer s j)).2) := by
    unfold racerGotoC
    simp only [hcp, if_pos hmem, hro]
    rw [if_neg hij]
  refine ⟨fun hne => by rw [hbase, if_neg hne], fun heq => by rw [hbase, if_pos heq], ?_⟩
  intro s2 hc
  rw [hbase] at hc
  by_cases hpp : (getRacer s j).position = (getRacer s i).position
  · rw [if_pos hpp] at hc; cases hc
  · rw [if_neg hpp] at hc; cases hc

/-- C10 counterexample: with both racers loaded onto the shared start
cell `(0,0)` of the square map — a state the loader can produce, since it
draws the two start cells independently from the start area — racer 1's
`goto((0,0))` enters the collision branch but raises `IndexError` at
`new_position = line[1]` (the line is the single point `[(0,0)]`), not
the `AttributeError` the claim asserts for every occupied target, and no
racer is mutated. -/
theorem c10_counterexample :
    (getRacer (loadGame gridSq (0, 0) (0, 0)) 1).crash_position = none ∧
    ((0, 0) : Pt) ∈ (getRacer (loadGame gridSq (0, 0) (0, 0)) 1).possible_next_positions ∧
    racerOnPosition (loadGame gridSq (0, 0) (0, 0)) (0, 0) = some 0 ∧
    racerGotoC (loadGame gridSq (0, 0) (0, 0)) 1 (0, 0) =
      GotoOut.indexError (loadGame gridSq (0, 0) (0, 0)) ∧
    ∀ s2 : GState,
      racerGotoC (loadGame gridSq (0, 0) (0, 0)) 1 (0, 0) ≠ GotoOut.attrError s2 := by
  refine ⟨by decide, by decide, by decide, by decide, ?_⟩
  intro s2 hc
  rw [(by decide : racerGotoC (loadGame gridSq (0, 0) (0, 0)) 1 (0, 0) =
    GotoOut.indexError (loadGame gridSq (0, 0) (0, 0)))] at hc
  cases hc

/-- C10 witness: the concrete distance-3 collision state drives the
consolidated `goto` into the `AttributeError`, and the move does not
complete. -/
theorem c10_witness :
    racerGotoC traceDpre.2 0 (6, 0) =
      GotoOut.attrError
        (setRacer traceDpre.2 1
          (applyEffOnceC traceDpre.2.grid ⟨EffVariant.maxSpeed 0, 2, 10⟩
              (getRacer traceDpre.2 1)).2) ∧
    ∀ s2 : GState, racerGotoC traceDpre.2 0 (6, 0) ≠ GotoOut.ok true s2 :=
  ⟨(c10_collision_never_completes traceDpre.2 0 1 (6, 0) (by decide) (by decide)
      (by decide) (by decide)).1 (by decide),
   (c10_collision_never_completes traceDpre.2 0 1 (6, 0) (by decide) (by decide)
      (by decide) (by decide)).2.2⟩

/-! ### Basic state lemmas -/

theorem getRacer_setRacer_same (s : GState) (i : ℕ) (r : RacerS) :
    getRacer (setRacer s i r) i = r := by
  unfold getRacer setRacer
  by_cases h : i = 1 <;> simp [h]

theorem setRacer_grid (s : GState) (j : ℕ) (r : RacerS) :
    (setRacer s j r).grid = s.grid := by
  unfold setRacer
  split <;> rfl

theorem getRacer_setRacer_other (s : GState) {i j : ℕ} (r : RacerS)
    (hi : i < 2) (hj : j < 2) (hij : i ≠ j) :
    getRacer (setRacer s j r) i = getRacer s i := by
  unfold getRacer setRacer
  interval_cases i <;> interval_cases j <;> simp_all

theorem racerOnPosition_spec {s : GState} {p : Pt} {j : ℕ}
    (h : racerOnPosition s p = some j) : j < 2 ∧ (getRacer s j).position = p := by
  unfold racerOnPosition at h
  by_cases h0 : s.r0.position = p
  · simp [h0] at h
    subst h
    exact ⟨by omega, h0⟩
  · by_cases h1 : s.r1.position = p
    · simp [h0, h1] at h
      subst h
      exact ⟨by omega, h1⟩
    · simp [h0, h1] at h

/-- `gotoTail` never moves the racer away from the committed position:
position changes only through the explicit assignment at its start. -/
theorem gotoTail_position (ap : PRGrid → EffectInst → RacerS → EffectInst × RacerS)
    (calcFn : PRGrid → RacerS → RacerS) (g : PRGrid) (r : RacerS) (p : Pt)
    (hap : ∀ e r', ((ap g) e r').2.position = r'.position)
    (hcalc : ∀ r', (calcFn g r').position = r'.position) :
    (gotoTail ap calcFn g r p).position = p := by
  have happly : ∀ t r', (applyEffects (ap g) t r').position = r'.position := by
    intro t r'
    unfold applyEffects
    suffices hgo : ∀ es r0, (applyEffectsGo (ap g) t es r0).2.position = r0.position by
      exact hgo r'.effects r'
    intro es
    induction es with
    | nil => intro r0; rfl
    | cons e es ih =>
      intro r0
      unfold applyEffectsGo
      by_cases he : e.etype = t
      · simp only [if_pos he]
        rw [ih]
        exact hap e r0
      · simp only [if_neg he]
        exact ih r0
  unfold gotoTail
  rw [happly, hcalc, happly]
  by_cases h : getType g p = some PaperRacePointType.EFFECT
  · simp only [h, if_pos]
    cases alookup g.effects p <;> rfl
  · simp only
    rw [if_neg (by simpa using h)]

theorem applyEffOnceC_position (g : PRGrid) (e : EffectInst) (r : RacerS) :
    (applyEffOnceC g e r).2.position = r.position := by
  unfold applyEffOnceC
  by_cases h : e.duration = 0
  · simp [h]
  · simp only [if_neg h]
    cases e.variant <;> simp only <;> split <;> rfl

theorem applyEffOnceL_position (g : PRGrid) (e : EffectInst) (r : RacerS) :
    (applyEffOnceL g e r).2.position = r.position := by
  unfold applyEffOnceL
  by_cases h : e.duration = 0
  · simp [h]
  · simp only [if_neg h]
    cases e.variant <;> simp only <;> split <;> rfl

theorem calcC_position (g : PRGrid) (r : RacerS) : (calcC g r).position = r.position := rfl

theorem calcL_position (g : PRGrid) (r : RacerS) : (calcL g r).position = r.position := rfl

/-! ### Scoreboard bookkeeping lemmas (for C4) -/

theorem haskey_iff {sb : List (ℕ × ℕ)} {k : ℕ} :
    haskey sb k = true ↔ k ∈ sbKeys sb := by
  induction sb with
  | nil => simp [haskey, sbKeys]
  | cons kv rest ih =>
    obtain ⟨k0, v0⟩ := kv
    unfold haskey
    by_cases h : k0 = k
    · simp [h, sbKeys]
    · simp only [if_neg h, ih, sbKeys, List.map_cons, List.mem_cons]
      constructor
      · intro hm; exact Or.inr hm
      · rintro (hm | hm)
        · exact absurd hm.symm h
        · exact hm

theorem sbKeys_aset (sb : List (ℕ × ℕ)) (k : ℕ) (v : ℕ) :
    sbKeys (aset sb k v) =
      if k ∈ sbKeys sb then sbKeys sb else sbKeys sb ++ [k] := by
  induction sb with
  | nil => simp [aset, sbKeys]
  | cons kv rest ih =>
    obtain ⟨k0, v0⟩ := kv
    unfold aset
    by_cases h : k0 = k
    · subst h
      simp [sbKeys]
    · rw [if_neg h]
      have hcons : sbKeys ((k0, v0) :: aset rest k v) = k0 :: sbKeys (aset rest k v) := rfl
      have hcons2 : sbKeys ((k0, v0) :: rest) = k0 :: sbKeys rest := rfl
      have hmem : (k ∈ sbKeys ((k0, v0) :: rest)) ↔ k ∈ sbKeys rest := by
        rw [hcons2, List.mem_cons]
        constructor
        · rintro (hc | hc)
          · exact absurd hc.symm h
          · exact hc
        · exact Or.inr
      rw [hcons, ih, hcons2]
      by_cases hm : k ∈ sbKeys rest
      · rw [if_pos hm, if_pos (List.mem_cons.mpr (Or.inr hm))]
      · rw [if_neg hm, if_neg (show k ∉ k0 :: sbKeys rest by
          rw [List.mem_cons]
          rintro (hc | hc)
          · exact h hc.symm
          · exact hm hc)]
        rfl

theorem two_le_length_iff (l : List ℕ) (hlt : ∀ k ∈ l, k < 2) (hnd : l.Nodup) :
    2 ≤ l.length ↔ (0 ∈ l ∧ 1 ∈ l) := by
  constructor
  · intro hlen
    by_cases h0 : 0 ∈ l
    · by_cases h1 : 1 ∈ l
      · exact ⟨h0, h1⟩
      · have hsub : l ⊆ [0] := by
          intro k hk
          have := hlt k hk
          have hne : k ≠ 1 := fun hc => h1 (hc ▸ hk)
          interval_cases k
          · simp
          · exact absurd rfl hne
        have := (List.subperm_of_subset hnd hsub).length_le
        simp at this
        omega
    · have hsub : l ⊆ [1] := by
        intro k hk
        have := hlt k hk
        have hne : k ≠ 0 := fun hc => h0 (hc ▸ hk)
        interval_cases k
        · exact absurd rfl hne
        · simp
      have := (List.subperm_of_subset hnd hsub).length_le
      simp at this
      omega
  · rintro ⟨h0, h1⟩
    have hsub : [0, 1] ⊆ l := by
      intro k hk
      simp at hk
      rcases hk with h | h <;> subst h <;> assumption
    have := (List.subperm_of_subset (by decide) hsub).length_le
    simpa using this

/-! ### C4 -/

theorem setRacer_scoreboard (s : GState) (i : ℕ) (r : RacerS) :
    (setRacer s i r).scoreboard = s.scoreboard := by
  unfold setRacer; split <;> rfl

theorem setRacer_finished (s : GState) (i : ℕ) (r : RacerS) :
    (setRacer s i r).finished = s.finished := by
  unfold setRacer; split <;> rfl

theorem setRacer_current (s : GState) (i : ℕ) (r : RacerS) :
    (setRacer s i r).current_racer_id = s.current_racer_id := by
  unfold setRacer; split <;> rfl

/-- All possible shapes of a consolidated-engine `goto` result. -/
theorem racerGotoC_cases (s : GState) (i : ℕ) (t : Pt) :
    racerGotoC s i t = GotoOut.ok false s ∨
    (∃ r, racerGotoC s i t = GotoOut.ok true (setRacer s i r)) ∨
    (∃ j r, racerGotoC s i t = GotoOut.attrError (setRacer s j r)) ∨
    racerGotoC s i t = GotoOut.indexError s := by
  unfold racerGotoC
  cases hcp : (getRacer s i).crash_position with
  | some cp =>
    simp only [hcp]
    exact Or.inr (Or.inl ⟨_, rfl⟩)
  | none =>
    simp only [hcp]
    by_cases hm : t ∈ (getRacer s i).possible_next_positions
    · rw [if_pos hm]
      cases hro : racerOnPosition s t with
      | none => exact Or.inr (Or.inl ⟨_, rfl⟩)
      | some j =>
        dsimp only
        by_cases hj : j = i
        · rw [if_pos hj]
          exact Or.inr (Or.inl ⟨_, rfl⟩)
        · rw [if_neg hj]
          by_cases hpp : (getRacer s j).position = (getRacer s i).position
          · rw [if_pos hpp]
            exact Or.inr (Or.inr (Or.inr rfl))
          · rw [if_neg hpp]
            exact Or.inr (Or.inr (Or.inl ⟨j, _, rfl⟩))
    · rw [if_neg hm]
      exact Or.inl rfl

/-- `next_player` (re-)establishes the bookkeeping invariant from the
state left behind after the scoreboard update. -/
theorem nextPlayer_establishes (s : GState)
    (hcur : s.current_racer_id < 2)
    (hlt : ∀ k ∈ sbKeys s.scoreboard, k < 2)
    (hnd : (sbKeys s.scoreboard).Nodup)
    (hfin : s.finished = true → (0 ∈ sbKeys s.scoreboard ∧ 1 ∈ sbKeys s.scoreboard)) :
    InvC (nextPlayer s) := by
  have hiff := two_le_length_iff (sbKeys s.scoreboard) hlt hnd
  have hlensb : s.scoreboard.length = (sbKeys s.scoreboard).length := by
    simp [sbKeys]
  unfold nextPlayer nextPlayerGo
  by_cases hL : 2 ≤ s.scoreboard.length
  · rw [if_pos hL]
    have hboth := hiff.mp (by omega)
    exact
      { cur_lt := hcur
        keys_lt := hlt
        keys_nodup := hnd
        fin_iff := by simpa using hboth
        cur_free := by intro h; simp at h }
  · rw [if_neg hL]
    have hnotboth : ¬(0 ∈ sbKeys s.scoreboard ∧ 1 ∈ sbKeys s.scoreboard) := by
      intro hc
      have := hiff.mpr hc
      omega
    have hfin2 : s.finished = false := by
      cases hf : s.finished with
      | false => rfl
      | true => exact absurd (hfin hf) hnotboth
    have hc2 : (s.current_racer_id + 1) % 2 < 2 := Nat.mod_lt _ (by norm_num)
    have hkk : ((s.current_racer_id + 1) % 2 + 1) % 2 ≠ (s.current_racer_id + 1) % 2 := by
      omega
    by_cases hk : haskey s.scoreboard ((s.current_racer_id + 1) % 2) = true
    · have hk2 : haskey s.scoreboard (((s.current_racer_id + 1) % 2 + 1) % 2) = false := by
        cases hkv : haskey s.scoreboard (((s.current_racer_id + 1) % 2 + 1) % 2) with
        | false => rfl
        | true =>
          exfalso
          apply hnotboth
          have m1 := haskey_iff.mp hk
          have m2 := haskey_iff.mp hkv
          have e1 : (s.current_racer_id + 1) % 2 = 0 ∨ (s.current_racer_id + 1) % 2 = 1 := by
            omega
          rcases e1 with e | e <;> rw [e] at m1 m2
          · have e2 : ((0 : ℕ) + 1) % 2 = 1 := by norm_num
            rw [e2] at m2
            exact ⟨m1, m2⟩
          · have e2 : ((1 : ℕ) + 1) % 2 = 0 := by norm_num
            rw [e2] at m2
            exact ⟨m2, m1⟩
      rw [if_pos hk]
      unfold nextPlayerGo
      dsimp only
      rw [if_neg hL, hk2]
      simp only [Bool.false_eq_true, if_false]
      exact
        { cur_lt := by dsimp only; omega
          keys_lt := hlt
          keys_nodup := hnd
          fin_iff := by
            dsimp only
            rw [hfin2]
            constructor
            · intro h; cases h
            · intro hc; exact absurd hc hnotboth
          cur_free := fun _ hc => by
            have := haskey_iff.mpr hc
            rw [this] at hk2
            cases hk2 }
    · rw [if_neg (by simpa using hk)]
      exact
        { cur_lt := hc2
          keys_lt := hlt
          keys_nodup := hnd
          fin_iff := by
            simp only [hfin2]
            constructor
            · intro h; cases h
            · intro hc; exact absurd hc hnotboth
          cur_free := fun _ => fun hc => by
            have := haskey_iff.mpr hc
            rw [this] at hk
            exact hk rfl }

/-- Successful consolidated advances preserve the invariant. -/
theorem gameGotoC_preserves (s s2 : GState) (t : Pt)
    (hinv : InvC s) (h : gameGotoC s t = GotoOut.ok true s2) : InvC s2 := by
  unfold gameGotoC at h
  rcases racerGotoC_cases s s.current_racer_id t with hc | ⟨r, hc⟩ | ⟨j, r, hc⟩ | hc
  · rw [hc] at h; cases h
  · rw [hc] at h
    have hs2 : s2 = gameTail (setRacer s s.current_racer_id r) := by
      cases h; rfl
    subst hs2
    set s1 := setRacer s s.current_racer_id r with hs1
    have hsb : s1.scoreboard = s.scoreboard := setRacer_scoreboard _ _ _
    have hfin : s1.finished = s.finished := setRacer_finished _ _ _
    have hcr : s1.current_racer_id = s.current_racer_id := setRacer_current _ _ _
    unfold gameTail
    by_cases hd : (getRacer s1 s1.current_racer_id).position ∈ s1.grid.destarea
    · rw [if_pos hd]
      apply nextPlayer_establishes <;>
        simp only [hsb, hfin, hcr]
      · exact hinv.cur_lt
      · intro k hk
        rw [sbKeys_aset] at hk
        by_cases hmem : s.current_racer_id ∈ sbKeys s.scoreboard
        · rw [if_pos hmem] at hk
          exact hinv.keys_lt k hk
        · rw [if_neg hmem] at hk
          rcases List.mem_append.mp hk with hk | hk
          · exact hinv.keys_lt k hk
          · simp at hk
            subst hk
            exact hinv.cur_lt
      · rw [sbKeys_aset]
        by_cases hmem : s.current_racer_id ∈ sbKeys s.scoreboard
        · rw [if_pos hmem]
          exact hinv.keys_nodup
        · rw [if_neg hmem]
          exact List.Nodup.append hinv.keys_nodup (List.nodup_singleton _)
            (fun a ha hb => hmem ((List.mem_singleton.mp hb) ▸ ha))
      · intro hf
        have hboth := hinv.fin_iff.mp hf
        rw [sbKeys_aset]
        split
        · exact hboth
        · exact ⟨List.mem_append.mpr (Or.inl hboth.1), List.mem_append.mpr (Or.inl hboth.2)⟩
    · rw [if_neg hd]
      apply nextPlayer_establishes <;> simp only [hsb, hfin, hcr]
      · exact hinv.cur_lt
      · exact hinv.keys_lt
      · exact hinv.keys_nodup
      · exact fun hf => hinv.fin_iff.mp hf
  · rw [hc] at h; cases h
  · rw [hc] at h; cases h

theorem invC_loadGame (g : PRGrid) (p0 p1 : Pt) : InvC (loadGame g p0 p1) :=
  { cur_lt := by show (0 : ℕ) < 2; norm_num
    keys_lt := by intro k hk; cases hk
    keys_nodup := List.nodup_nil
    fin_iff := by
      show false = true ↔ ((0 : ℕ) ∈ sbKeys [] ∧ (1 : ℕ) ∈ sbKeys [])
      constructor
      · intro h; cases h
      · rintro ⟨hc, -⟩; cases hc
    cur_free := by intro _ hc; cases hc }

/-- C4 (amended): in every consolidated-engine state reachable by
successful `goto` calls from a freshly loaded game, the finished flag is
true exactly when both racer ids have scoreboard entries, and **while the
game is not finished** the turn pointer refers to an id without a
scoreboard entry. (In the terminal state the pointer stays on the last
finisher, which does have an entry; see the counterexample.) -/
theorem c4_turn_scoreboard_invariant (g : PRGrid) (p0 p1 : Pt) (s : GState)
    (hreach : ReachC (loadGame g p0 p1) s) :
    (s.finished = true ↔ (haskey s.scoreboard 0 = true ∧ haskey s.scoreboard 1 = true)) ∧
    (s.finished = false → haskey s.scoreboard s.current_racer_id = false) := by
  have hinv : InvC s := by
    induction hreach with
    | refl => exact invC_loadGame g p0 p1
    | step t _ hstep ih => exact gameGotoC_preserves _ _ t ih hstep
  constructor
  · rw [hinv.fin_iff, haskey_iff, haskey_iff]
  · intro hf
    have := hinv.cur_free hf
    cases hk : haskey s.scoreboard s.current_racer_id with
    | false => rfl
    | true => exact absurd (haskey_iff.mp hk) this

/-- C4 counterexample: after the game finishes, the turn pointer still
refers to the last finisher — an id that has a scoreboard entry — so the
claim's unconditional "turn pointer never refers to an id already in the
scoreboard" fails in a reachable state. -/
theorem c4_counterexample :
    gotoOutOk sq1 = true ∧
    gotoOutOk sq2 = true ∧
    (gotoOutState sq2).finished = true ∧
    (gotoOutState sq2).current_racer_id = 1 ∧
    haskey (gotoOutState sq2).scoreboard 1 = true := by
  decide

/-- C4 witness: the invariant holds at the freshly loaded square map. -/
theorem c4_witness :
    ((loadGame gridSq (0, 0) (0, 1)).finished = true ↔
      (haskey (loadGame gridSq (0, 0) (0, 1)).scoreboard 0 = true ∧
        haskey (loadGame gridSq (0, 0) (0, 1)).scoreboard 1 = true)) ∧
    ((loadGame gridSq (0, 0) (0, 1)).finished = false →
      haskey (loadGame gridSq (0, 0) (0, 1)).scoreboard
        (loadGame gridSq (0, 0) (0, 1)).current_racer_id = false) :=
  c4_turn_scoreboard_invariant gridSq (0, 0) (0, 1) _ ReachC.refl

/-! ### C9: measures and invariants of the heuristic builder -/

theorem alookup_aset {κ α : Type} [DecidableEq κ] (l : List (κ × α)) (k k' : κ) (v : α) :
    alookup (aset l k v) k' = if k = k' then some v else alookup l k' := by
  induction l with
  | nil =>
    by_cases h : k = k' <;> simp [aset, alookup, h]
  | cons kv rest ih =>
    obtain ⟨k0, v0⟩ := kv
    unfold aset
    by_cases h0 : k0 = k
    · subst h0
      unfold alookup
      by_cases h : k0 = k' <;> simp [h]
    · rw [if_neg h0]
      unfold alookup
      by_cases h : k0 = k'
      · rw [if_pos h, if_pos h, if_neg (fun hc => h0 (h.trans hc.symm))]
      · rw [if_neg h, if_neg h, ih]

theorem alookup_some_mem {κ α : Type} [DecidableEq κ] {l : List (κ × α)} {k : κ} {v : α}
    (h : alookup l k = some v) : k ∈ l.map Prod.fst := by
  induction l with
  | nil => cases h
  | cons kv rest ih =>
    obtain ⟨k0, v0⟩ := kv
    unfold alookup at h
    by_cases h0 : k0 = k
    · subst h0
      exact List.mem_cons_self _ _
    · rw [if_neg h0] at h
      exact List.mem_cons_of_mem _ (ih h)

theorem countP_lt_of_witness {κ : Type} {p q : κ → Bool} :
    ∀ {l : List κ}, (∀ x ∈ l, q x = true → p x = true) →
      ∀ x0 ∈ l, p x0 = true → q x0 = false → l.countP q < l.countP p := by
  intro l
  induction l with
  | nil => intro _ x0 hx0; cases hx0
  | cons y ys ih =>
    intro himp x0 hx0 hp hq
    rw [List.countP_cons, List.countP_cons]
    rcases List.mem_cons.mp hx0 with he | hm
    · subst he
      rw [hp, hq]
      have hle := List.countP_mono_left (fun x hx hqx => himp x (List.mem_cons_of_mem _ hx) hqx)
      simp only [Bool.false_eq_true, if_false, if_true]
      omega
    · have hlt := ih (fun x hx hqx => himp x (List.mem_cons_of_mem _ hx) hqx) x0 hm hp hq
      have hinc : (if q y = true then 1 else 0) ≤ (if p y = true then 1 else 0) := by
        by_cases hqy : q y = true
        · rw [if_pos hqy, if_pos (himp y (List.mem_cons_self _ _) hqy)]
        · rw [if_neg hqy]
          omega
      omega

/-- A first assignment to an in-grid cell strictly decreases the count of
unassigned cells. -/
theorem bhUc_aset_new {g : PRGrid} {h : List (Pt × ℕ)} {n : Pt} {v : ℕ}
    (hmem : n ∈ g.cells.map Prod.fst) (hnone : alookup h n = none) :
    bhUc g (aset h n v) < bhUc g h := by
  unfold bhUc
  apply countP_lt_of_witness
  · intro x _ hq
    rw [decide_eq_true_iff] at hq ⊢
    rw [alookup_aset] at hq
    by_cases hx : n = x
    · rw [if_pos hx] at hq; cases hq
    · rwa [if_neg hx] at hq
  · exact hmem
  · rw [decide_eq_true_iff]; exact hnone
  · rw [decide_eq_false_iff_not]
    intro hc
    rw [alookup_aset, if_pos rfl] at hc
    cases hc

/-- Overwriting an existing entry does not change the unassigned count. -/
theorem bhUc_aset_old {g : PRGrid} {h : List (Pt × ℕ)} {n : Pt} {v w : ℕ}
    (hsome : alookup h n = some w) :
    bhUc g (aset h n v) = bhUc g h := by
  unfold bhUc
  apply List.countP_congr
  intro x _
  rw [decide_eq_true_iff, decide_eq_true_iff, alookup_aset]
  by_cases hx : n = x
  · subst hx
    rw [if_pos rfl, hsome]
    constructor
    · intro hc; cases hc
    · intro hc; cases hc
  · rw [if_neg hx]

/-- Improving an existing entry strictly decreases the value total. -/
theorem bhSum_aset_lt :
    ∀ {h : List (Pt × ℕ)} {n : Pt} {v w : ℕ},
      alookup h n = some w → v < w → bhSum (aset h n v) < bhSum h := by
  intro h
  induction h with
  | nil => intro n v w hc; cases hc
  | cons kv rest ih =>
    intro n v w hl hvw
    obtain ⟨k0, v0⟩ := kv
    unfold alookup at hl
    unfold aset bhSum
    by_cases h0 : k0 = n
    · rw [if_pos h0] at hl ⊢
      injection hl with hl
      subst hl
      simp only [List.map_cons, List.sum_cons]
      omega
    · rw [if_neg h0] at hl ⊢
      have := ih hl hvw
      unfold bhSum at this
      simp only [List.map_cons, List.sum_cons]
      omega

theorem neighboursP_mem_keys {g : PRGrid} {p n : Pt} (h : n ∈ neighboursP g p) :
    n ∈ g.cells.map Prod.fst := by
  unfold neighboursP at h
  have hacc := List.of_mem_filter h
  unfold is_accessable at hacc
  cases hl : getType g n with
  | none => rw [hl] at hacc; cases hacc
  | some t => exact alookup_some_mem hl

/-- Each relaxation of a neighbour list either assigns a cost to a fresh
cell, or strictly lowers an existing cost, or leaves the dict and queue
untouched. -/
theorem bhProcess_tri (g : PRGrid) (current : Pt) :
    ∀ (ns : List Pt) (h : List (Pt × ℕ)) (q : List Pt),
      (∀ n ∈ ns, n ∈ g.cells.map Prod.fst) →
      (bhUc g (bhProcess g current ns h q).1 < bhUc g h ∨
        (bhUc g (bhProcess g current ns h q).1 = bhUc g h ∧
          bhSum (bhProcess g current ns h q).1 < bhSum h) ∨
        ((bhProcess g current ns h q).1 = h ∧ (bhProcess g current ns h q).2 = q)) := by
  intro ns
  induction ns with
  | nil => intro h q _; exact Or.inr (Or.inr ⟨rfl, rfl⟩)
  | cons n ns ih =>
    intro h q hns
    have hnmem : n ∈ g.cells.map Prod.fst := hns n (List.mem_cons_self _ _)
    have hns2 : ∀ x ∈ ns, x ∈ g.cells.map Prod.fst :=
      fun x hx => hns x (List.mem_cons_of_mem _ hx)
    unfold bhProcess
    by_cases hb : getType g n = some PaperRacePointType.BLOCK
    · rw [if_pos hb]
      exact ih h q hns2
    · rw [if_neg hb]
      cases hl : alookup h n with
      | none =>
        dsimp only
        have hu := bhUc_aset_new (v := bhCost g ((alookup h current).getD 0) current n)
          hnmem hl
        rcases ih (aset h n (bhCost g ((alookup h current).getD 0) current n)) (q ++ [n])
            hns2 with h1 | ⟨h1, _⟩ | ⟨h1, _⟩
        · exact Or.inl (lt_trans h1 hu)
        · exact Or.inl (h1 ▸ hu)
        · exact Or.inl (by rw [h1]; exact hu)
      | some v =>
        dsimp only
        by_cases hcv : bhCost g ((alookup h current).getD 0) current n < v
        · rw [if_pos hcv]
          have hu := bhUc_aset_old (g := g)
            (v := bhCost g ((alookup h current).getD 0) current n) hl
          have hsum := bhSum_aset_lt hl hcv
          rcases ih (aset h n (bhCost g ((alookup h current).getD 0) current n)) (q ++ [n])
              hns2 with h1 | ⟨h1, h2⟩ | ⟨h1, h2⟩
          · exact Or.inl (by rw [← hu]; exact h1)
          · exact Or.inr (Or.inl ⟨h1.trans hu, lt_trans h2 hsum⟩)
          · exact Or.inr (Or.inl ⟨by rw [h1]; exact hu, by rw [h1]; exact hsum⟩)
        · rw [if_neg hcv]
          exact ih h q hns2

theorem bhStep_tri (g : PRGrid) (st : BHState) (current : Pt) (rest : List Pt)
    (hq : st.queue = current :: rest) :
    bhUc g (bhStep g st).h < bhUc g st.h ∨
    (bhUc g (bhStep g st).h = bhUc g st.h ∧ bhSum (bhStep g st).h < bhSum st.h) ∨
    ((bhStep g st).h = st.h ∧ (bhStep g st).queue.length < st.queue.length) := by
  unfold bhStep
  rw [hq]
  dsimp only
  have hns : ∀ n ∈ neighboursP g current, n ∈ g.cells.map Prod.fst :=
    fun n hn => neighboursP_mem_keys hn
  rcases bhProcess_tri g current (neighboursP g current) st.h rest hns with
    h1 | ⟨h1, h2⟩ | ⟨h1, h2⟩
  · exact Or.inl h1
  · exact Or.inr (Or.inl ⟨h1, h2⟩)
  · refine Or.inr (Or.inr ⟨h1, ?_⟩)
    rw [h2]
    simp

/-- C9 termination core: the worklist of `_build_h` empties after
finitely many dequeues, by the lexicographic measure
(#unassigned cells, total of assigned costs, queue length). -/
theorem bhRun_terminates (g : PRGrid) (st : BHState) :
    ∃ n, (bhRun g n st).queue = [] := by
  suffices H : ∀ u s q st2, bhUc g st2.h = u → bhSum st2.h = s → st2.queue.length = q →
      ∃ n, (bhRun g n st2).queue = [] from H _ _ _ st rfl rfl rfl
  intro u
  induction u using Nat.strong_induction_on with
  | _ u ihU =>
    intro s
    induction s using Nat.strong_induction_on with
    | _ s ihS =>
      intro q
      induction q using Nat.strong_induction_on with
      | _ q ihQ =>
        intro st2 hu hs hq
        cases hqe : st2.queue with
        | nil => exact ⟨0, hqe⟩
        | cons c rest =>
          rcases bhStep_tri g st2 c rest hqe with h1 | ⟨h1, h2⟩ | ⟨h1, h2⟩
          · obtain ⟨n, hn⟩ := ihU (bhUc g (bhStep g st2).h) (by omega)
              (bhSum (bhStep g st2).h) (bhStep g st2).queue.length (bhStep g st2) rfl rfl rfl
            exact ⟨n + 1, hn⟩
          · obtain ⟨n, hn⟩ := ihS (bhSum (bhStep g st2).h) (by omega)
              (bhStep g st2).queue.length (bhStep g st2) (by omega) rfl rfl
            exact ⟨n + 1, hn⟩
          · obtain ⟨n, hn⟩ := ihQ (bhStep g st2).queue.length (by omega) (bhStep g st2)
              (by rw [h1]; omega) (by rw [h1]; omega) rfl
            exact ⟨n + 1, hn⟩

/-- Every branch of the `_build_h` cost ladder adds at least 1 to the
dequeued cell's cost, provided destination cells are street cells (as
`load_from_bitmap` guarantees): the only zero-increment branch requires a
destination cell that is not a street cell. -/
theorem bhCost_ge (g : PRGrid)
    (hdest : ∀ p ∈ g.destarea, getType g p = some PaperRacePointType.STREET)
    (hc : ℕ) (current n : Pt) : hc + 1 ≤ bhCost g hc current n := by
  unfold bhCost
  by_cases h1 : getType g current = some PaperRacePointType.STREET
  · rw [if_pos h1]
    split <;> omega
  · rw [if_neg h1]
    by_cases h2 : current ∈ g.destarea
    · exact absurd (hdest current h2) h1
    · rw [if_neg h2]
      dsimp only
      repeat' split
      all_goals norm_num

theorem bhProcess_inv (g : PRGrid) (seed current : Pt)
    (hdest : ∀ p ∈ g.destarea, getType g p = some PaperRacePointType.STREET) :
    ∀ (ns : List Pt) (h : List (Pt × ℕ)) (q : List Pt),
      BHInv seed h → BHInv seed (bhProcess g current ns h q).1 := by
  intro ns
  induction ns with
  | nil => intro h q hinv; exact hinv
  | cons n ns ih =>
    intro h q hinv
    obtain ⟨hseed, hpos⟩ := hinv
    have hcost := bhCost_ge g hdest ((alookup h current).getD 0) current n
    unfold bhProcess
    by_cases hb : getType g n = some PaperRacePointType.BLOCK
    · rw [if_pos hb]
      exact ih h q ⟨hseed, hpos⟩
    · rw [if_neg hb]
      have hup : ∀ hns : n ≠ seed,
          BHInv seed (aset h n (bhCost g ((alookup h current).getD 0) current n)) := by
        intro hns
        constructor
        · rw [alookup_aset, if_neg (fun hc => hns hc)]
          exact hseed
        · intro p v hp hpseed
          rw [alookup_aset] at hp
          by_cases hnp : n = p
          · rw [if_pos hnp] at hp
            injection hp with hp
            omega
          · rw [if_neg hnp] at hp
            exact hpos p v hp hpseed
      cases hl : alookup h n with
      | none =>
        dsimp only
        have hns : n ≠ seed := fun hc => by rw [hc, hseed] at hl; cases hl
        exact ih _ _ (hup hns)
      | some v =>
        dsimp only
        by_cases hcv : bhCost g ((alookup h current).getD 0) current n < v
        · rw [if_pos hcv]
          have hns : n ≠ seed := by
            intro hc
            rw [hc, hseed] at hl
            injection hl with hl
            omega
          exact ih _ _ (hup hns)
        · rw [if_neg hcv]
          exact ih h q ⟨hseed, hpos⟩

theorem bhRun_inv (g : PRGrid) (seed : Pt)
    (hdest : ∀ p ∈ g.destarea, getType g p = some PaperRacePointType.STREET) :
    ∀ (n : ℕ) (st : BHState), BHInv seed st.h → BHInv seed (bhRun g n st).h := by
  intro n
  induction n with
  | zero => intro st hinv; exact hinv
  | succ n ih =>
    intro st hinv
    apply ih
    unfold bhStep
    cases hq : st.queue with
    | nil => exact hinv
    | cons c rest =>
      exact bhProcess_inv g seed c hdest (neighboursP g c) st.h rest hinv

/-- C9: on every finite grid whose destination cells are street cells (as
the bitmap loader guarantees), the heuristic builder seeded at a
destination cell terminates — the worklist empties after finitely many
dequeues — and at every point of the run (hence on termination) the seed
has cost exactly 0 while every other cell with an assigned cost has a
strictly positive one. -/
theorem c9_buildH_terminates_positive (g : PRGrid) (seed : Pt)
    (_hseed : seed ∈ g.destarea)
    (hdest : ∀ p ∈ g.destarea, getType g p = some PaperRacePointType.STREET) :
    (∃ n, (bhRun g n (bhInit seed)).queue = []) ∧
    ∀ n, alookup (bhRun g n (bhInit seed)).h seed = some 0 ∧
      ∀ p v, alookup (bhRun g n (bhInit seed)).h p = some v → p ≠ seed → 1 ≤ v := by
  constructor
  · exact bhRun_terminates g (bhInit seed)
  · intro n
    have hinit : BHInv seed (bhInit seed).h := by
      constructor
      · unfold bhInit alookup
        rw [if_pos rfl]
      · intro p v hp hpseed
        unfold bhInit alookup at hp
        rw [if_neg (fun hc => hpseed hc.symm)] at hp
        cases hp
    exact bhRun_inv g seed hdest n (bhInit seed) hinit

/-- C9 witness: the builder on the two-cell map. -/
theorem c9_witness :
    (∃ n, (bhRun gridW n (bhInit (0, 0))).queue = []) ∧
    ∀ n, alookup (bhRun gridW n (bhInit (0, 0))).h (0, 0) = some 0 ∧
      ∀ p v, alookup (bhRun gridW n (bhInit (0, 0))).h p = some v → p ≠ (0, 0) → 1 ≤ v :=
  c9_buildH_terminates_positive gridW (0, 0) (by decide) (by decide)

/-! ### C5 -/

theorem simple2Loop_shape (s : GState) (h : Pt → ℤ) (i : ℕ) (racer : RacerS)
    (full : List Pt) :
    ∀ (l : List Pt) (bs : Score) (best : Option Pt),
      l ⊆ full →
      Simple2Result s i racer full best →
      Simple2Result s i racer full (simple2Loop s h i racer l bs best) := by
  intro l
  induction l with
  | nil => intro bs best _ hbest; exact hbest
  | cons p rest ih =>
    intro bs best hsub hbest
    have hp : p ∈ full := hsub (List.mem_cons_self p rest)
    have hrest : rest ⊆ full := fun x hx => hsub (List.mem_cons_of_mem p hx)
    unfold simple2Loop
    by_cases hdest : p ∈ s.grid.destarea
    · rw [if_pos hdest]
      exact Or.inr ⟨p, rfl, Or.inl hp⟩
    · rw [if_neg hdest]
      by_cases hself : p = racer.position
      · rw [if_pos hself]
        exact ih bs best hrest hbest
      · rw [if_neg hself]
        cases hro : racerOnPosition s p with
        | none =>
          dsimp only
          split
          · exact ih _ _ hrest (Or.inr ⟨p, rfl, Or.inl hp⟩)
          · exact ih _ _ hrest hbest
        | some j =>
          dsimp only
          by_cases hj : j ≠ i
          · rw [if_pos hj]
            split
            · exact ih _ _ hrest
                (Or.inr ⟨_, rfl, Or.inr ⟨p, hp, ⟨j, hro, hj⟩, rfl⟩⟩)
            · exact ih _ _ hrest hbest
          · rw [if_neg hj]
            split
            · exact ih _ _ hrest (Or.inr ⟨p, rfl, Or.inl hp⟩)
            · exact ih _ _ hrest hbest

theorem aStarLoop_empty (g : PRGrid) (h : Pt → ℤ) :
    ∀ (n : ℕ) (st : AStarState), st.openlist = [] → aStarLoop g h n st = st := by
  intro n st hst
  cases n with
  | zero => rfl
  | succ n =>
    unfold aStarLoop
    rw [hst]

/-- C5 (amended): every cited agent returns the crash fallback when the
candidate set is empty; with a non-empty candidate set,
`SimplePRAgent2.next_position` returns a destination-area candidate, the
best-scoring candidate, a collision back-off point
`line(candidate, position)[1]` (not necessarily a candidate), or `None`
(when every considered candidate is skipped), assuming every heuristic
lookup succeeds. -/
theorem c5_agent_return (s : GState) (h : Pt → ℤ) (i : ℕ) :
    ((getRacer s i).possible_next_positions = [] →
      simple2NextPosition s h i = (getRacer s i).crash_position ∧
      astarNextPosition s h i = (getRacer s i).crash_position) ∧
    ((getRacer s i).possible_next_positions ≠ [] →
      Simple2Result s i (getRacer s i) (getRacer s i).possible_next_positions
        (simple2NextPosition s h i)) := by
  constructor
  · intro hc
    constructor
    · unfold simple2NextPosition
      dsimp only
      rw [if_pos hc]
    · unfold astarNextPosition aStarSearch
      dsimp only
      rw [hc]
      dsimp only [List.foldl]
      rw [aStarLoop_empty s.grid h 1000000 ⟨[], [], [], (0, 0)⟩ rfl]
      simp
  · intro hc
    unfold simple2NextPosition
    dsimp only
    rw [if_neg hc]
    exact simple2Loop_shape s h i (getRacer s i) (getRacer s i).possible_next_positions
      (getRacer s i).possible_next_positions ((⊤ : WithTop ℤ), 0) none
      (fun x hx => hx) (Or.inl rfl)

/-- C5 counterexample: for the boxed-in racer of `gridBox` the candidate
set is the non-empty `[(1,1)]`, yet `SimplePRAgent2.next_position`
returns `None` — not a member of the candidate set. -/
theorem c5_counterexample :
    (loadGame gridBox (1, 1) (4, 0)).r0.possible_next_positions = [(1, 1)] ∧
    simple2NextPosition (loadGame gridBox (1, 1) (4, 0)) hBox 0 = none ∧
    ∀ p ∈ (loadGame gridBox (1, 1) (4, 0)).r0.possible_next_positions,
      simple2NextPosition (loadGame gridBox (1, 1) (4, 0)) hBox 0 ≠ some p := by
  refine ⟨by decide, by decide, ?_⟩
  intro p _ hc
  rw [(by decide : simple2NextPosition (loadGame gridBox (1, 1) (4, 0)) hBox 0 = none)] at hc
  cases hc

/-- C5 witness: the fallback clause at the concrete crash-pending state of
`traceA`, and the return-shape clause at the loaded square map. -/
theorem c5_witness :
    traceA.2.r0.possible_next_positions = [] ∧
    simple2NextPosition traceA.2 (fun _ => 0) 0 = traceA.2.r0.crash_position ∧
    astarNextPosition traceA.2 (fun _ => 0) 0 = traceA.2.r0.crash_position ∧
    Simple2Result (loadGame gridSq (0, 0) (0, 1)) 0
      (getRacer (loadGame gridSq (0, 0) (0, 1)) 0)
      (getRacer (loadGame gridSq (0, 0) (0, 1)) 0).possible_next_positions
      (simple2NextPosition (loadGame gridSq (0, 0) (0, 1)) (fun _ => 0) 0) :=
  ⟨by decide,
   ((c5_agent_return traceA.2 (fun _ => 0) 0).1 (by decide)).1,
   ((c5_agent_return traceA.2 (fun _ => 0) 0).1 (by decide)).2,
   (c5_agent_return (loadGame gridSq (0, 0) (0, 1)) (fun _ => 0) 0).2 (by decide)⟩

/-! ### C1 -/

/-- C1 (amended): the full `PaperRacer.goto` success law of both engines,
over every racer state. With a crash fallback pending the move always
succeeds (the target argument is never consulted); with no fallback and
the target not a candidate, both engines return `False` and mutate
nothing; with the target a candidate, the legacy engine succeeds unless
the target is occupied by a different racer standing on the mover's own
cell, in which case it raises `IndexError` with no mutation, while the
consolidated engine succeeds exactly when no different racer occupies the
target. -/
theorem goto_success_characterization (s : GState) (i : ℕ) (t : Pt) :
    (gotoOutOk (racerGotoL s i t) = true ↔
      ((getRacer s i).crash_position ≠ none ∨
        (t ∈ (getRacer s i).possible_next_positions ∧
          ¬∃ j, racerOnPosition s t = some j ∧ j ≠ i ∧
            (getRacer s j).position = (getRacer s i).position))) ∧
    (racerGotoL s i t = GotoOut.ok false s ↔
      ((getRacer s i).crash_position = none ∧
        t ∉ (getRacer s i).possible_next_positions)) ∧
    (racerGotoL s i t = GotoOut.indexError s ↔
      ((getRacer s i).crash_position = none ∧
        t ∈ (getRacer s i).possible_next_positions ∧
        ∃ j, racerOnPosition s t = some j ∧ j ≠ i ∧
          (getRacer s j).position = (getRacer s i).position)) ∧
    (gotoOutOk (racerGotoC s i t) = true ↔
      ((getRacer s i).crash_position ≠ none ∨
        (t ∈ (getRacer s i).possible_next_positions ∧
          ¬∃ j, racerOnPosition s t = some j ∧ j ≠ i))) ∧
    (racerGotoC s i t = GotoOut.ok false s ↔
      ((getRacer s i).crash_position = none ∧
        t ∉ (getRacer s i).possible_next_positions)) := by
  cases hcp : (getRacer s i).crash_position with
  | some cp => simp [racerGotoL, racerGotoC, gotoOutOk, hcp]
  | none =>
    by_cases hm : t ∈ (getRacer s i).possible_next_positions
    · cases hro : racerOnPosition s t with
      | none => simp [racerGotoL, racerGotoC, gotoOutOk, hcp, hm, hro]
      | some j =>
        by_cases hj : j = i
        · subst hj
          simp [racerGotoL, racerGotoC, gotoOutOk, hcp, hm, hro]
        · by_cases hpp : (getRacer s j).position = (getRacer s i).position
          · simp [racerGotoL, racerGotoC, gotoOutOk, hcp, hm, hro, hj, hpp]
          · simp [racerGotoL, racerGotoC, gotoOutOk, hcp, hm, hro, hj, hpp]
    · simp [racerGotoL, racerGotoC, gotoOutOk, hcp, hm]

/-- C1 counterexample: in the crash-branch trace the racer is
crash-pending with fallback `(7,0)` and empty candidate set, yet
`goto((5,5))` — a target that is neither a candidate nor the fallback —
succeeds and moves the racer to the fallback, where the claim requires a
rejected move. -/
theorem c1_counterexample :
    traceA.1 = true ∧
    traceA.2.current_racer_id = 0 ∧
    traceA.2.r0.possible_next_positions = [] ∧
    traceA.2.r0.crash_position = some (7, 0) ∧
    ((5, 5) : Pt) ∉ traceA.2.r0.possible_next_positions ∧
    ((5, 5) : Pt) ≠ ((7, 0) : Pt) ∧
    traceA2.1 = true ∧
    traceA2.2.r0.position = (7, 0) := by
  decide

/-- C1 witness: the success law instantiated on the loaded square map,
where the target `(1,1)` is an unoccupied candidate. -/
theorem c1_witness :
    gotoOutOk (racerGotoL (loadGame gridSq (0, 0) (0, 1)) 0 (1, 1)) = true :=
  (goto_success_characterization (loadGame gridSq (0, 0) (0, 1)) 0 (1, 1)).1.mpr
    (Or.inr ⟨by decide, fun ⟨j, hj, _, _⟩ => by
      rw [(by decide :
        racerOnPosition (loadGame gridSq (0, 0) (0, 1)) ((1 : ℤ), (1 : ℤ)) = none)] at hj
      cases hj⟩)

/-! ### C2 -/

theorem getD_one_reverse {l : List Pt} (z : Pt) (h : 2 ≤ l.length) :
    l.reverse.getD 1 z = l.getD (l.length - 2) z := by
  rw [List.getD_eq_getElem?_getD, List.getD_eq_getElem?_getD]
  rw [List.getElem?_reverse (by omega)]
  have : l.length - 1 - 1 = l.length - 2 := by omega
  rw [this]

/-- C2 (amended): a successful legacy-engine move onto another racer's
cell ends on the **second** point of `rasterize(other, self)` — one step
away from the other racer, equivalently the second-to-last point of
`rasterize(self, other)` — and never on the other racer's cell. -/
theorem racerGotoL_collision (s : GState) (i j : ℕ) (t : Pt)
    (_hi : i < 2)
    (hcp : (getRacer s i).crash_position = none)
    (hmem : t ∈ (getRacer s i).possible_next_positions)
    (hro : racerOnPosition s t = some j)
    (hij : j ≠ i)
    (hne : t ≠ (getRacer s i).position) :
    gotoOutOk (racerGotoL s i t) = true ∧
    (getRacer (gotoOutState (racerGotoL s i t)) i).position
        = (lineP t (getRacer s i).position).getD 1 (0, 0) ∧
    (getRacer (gotoOutState (racerGotoL s i t)) i).position ≠ t ∧
    (lineP t (getRacer s i).position).getD 1 (0, 0)
        = (lineP (getRacer s i).position t).getD
            ((lineP (getRacer s i).position t).length - 2) (0, 0) := by
  obtain ⟨hj2, hjpos⟩ := racerOnPosition_spec hro
  have hppne : ¬(getRacer s j).position = (getRacer s i).position :=
    fun hc => hne (hjpos.symm.trans hc)
  have hgoto : racerGotoL s i t =
      GotoOut.ok true
        (setRacer (setRacer s j (calcL s.grid (applyEffOnceL s.grid ⟨.maxSpeed 0, 2, 10⟩ (getRacer s j)).2)) i
          (gotoTail applyEffOnceL calcL s.grid
            { getRacer s i with
                effects := addEffect ⟨.maxSpeed 0, 1, 10⟩ (getRacer s i).effects,
                speed := psub ((lineP (getRacer s j).position (getRacer s i).position).getD 1 (0, 0))
                           (getRacer s i).position }
            ((lineP (getRacer s j).position (getRacer s i).position).getD 1 (0, 0)))) := by
    unfold racerGotoL
    simp only [hcp, if_pos hmem, hro]
    rw [if_neg hij, if_neg hppne, setRacer_grid]
  have hL1 : (lineP t (getRacer s i).position).getD 1 (0, 0) ≠ t := lineP_getD_one_ne hne
  have hlen : 2 ≤ (lineP (getRacer s i).position t).length := by
    rw [lineP_length]
    have : dist (getRacer s i).position t ≠ 0 := fun hc =>
      hne ((dist_eq_zero_iff.mp hc)).symm
    omega
  have hpos2 : (getRacer (gotoOutState (racerGotoL s i t)) i).position
      = (lineP t (getRacer s i).position).getD 1 (0, 0) := by
    rw [hgoto]
    simp only [gotoOutState]
    rw [getRacer_setRacer_same]
    rw [gotoTail_position _ _ _ _ _ (fun e r' => applyEffOnceL_position s.grid e r')
      (fun r' => calcL_position s.grid r'), hjpos]
  refine ⟨by rw [hgoto]; rfl, hpos2, ?_, ?_⟩
  · rw [hpos2]; exact hL1
  · rw [← getD_one_reverse (0, 0) hlen, ← lineP_symm]

/-- C2 counterexample: in the distance-3 collision trace the mover ends
on `(5,0)` — the second point of `rasterize((6,0),(3,0))` — while the
claim's "second-to-last point" of that line is `(4,0)`. -/
theorem c2_counterexample :
    traceDpre.1 = true ∧
    traceDpre.2.r0.position = (3, 0) ∧
    traceDpre.2.r1.position = (6, 0) ∧
    traceD.1 = true ∧
    lineP (6, 0) (3, 0) = [(6, 0), (5, 0), (4, 0), (3, 0)] ∧
    (lineP (6, 0) (3, 0)).getD ((lineP (6, 0) (3, 0)).length - 2) (0, 0) = (4, 0) ∧
    traceD.2.r0.position = (5, 0) ∧
    traceD.2.r0.position ≠ (4, 0) := by
  decide

/-- C2 witness: the amended back-off law applied to the concrete
distance-3 collision. -/
theorem c2_witness :
    gotoOutOk (racerGotoL traceDpre.2 0 (6, 0)) = true ∧
    (getRacer (gotoOutState (racerGotoL traceDpre.2 0 (6, 0))) 0).position
        = (lineP (6, 0) (getRacer traceDpre.2 0).position).getD 1 (0, 0) ∧
    (getRacer (gotoOutState (racerGotoL traceDpre.2 0 (6, 0))) 0).position ≠ (6, 0) :=
  ⟨(racerGotoL_collision traceDpre.2 0 1 (6, 0) (by decide) (by decide) (by decide)
      (by decide) (by decide) (by decide)).1,
   (racerGotoL_collision traceDpre.2 0 1 (6, 0) (by decide) (by decide) (by decide)
      (by decide) (by decide) (by decide)).2.1,
   (racerGotoL_collision traceDpre.2 0 1 (6, 0) (by decide) (by decide) (by decide)
      (by decide) (by decide) (by decide)).2.2.1⟩

end PaperRace
